import Mathlib

/-!
# Header navigation block (`blocks/header/header.js`)

A shallow embedding of the header block's DOM manipulation.

* The DOM is a finite tree of elements.  An element carries its tag (lower-case local
  name), its `id`, its class list and its remaining attributes.  Text nodes are not
  modelled: the code only ever looks at element children (`firstElementChild`,
  `children`, `querySelector`).
* An element handle is the path (list of child indices) from the root of the tree that is
  being worked on.  After decoration the root is the `<nav id="nav">` element, which is what
  `document.getElementById('nav')` returns.  The elements above that root (wrapper, block,
  page) are not part of the state, so a selector sees no ancestor above the root.
* `querySelectorAll` lists the matching strict descendants of the context element in
  document order; `querySelector` is its first entry.  A selector is tested on the element
  together with its ancestors (nearest first), which is what the selector shapes used by
  the code need (`.c`, `t`, `[k="v"]`, `t1 > t2`, `.c t`).
* `NodeList.forEach` is a left fold over the static list of handles.
* `document.body.style.overflowY` and the element that has the keyboard focus
  (`document.activeElement`) are fields of the page state, next to the value of the media
  query `isDesktop.matches` and the click listeners attached by `enableDropdowns`.
  `element.focus()` moves the focus only to a focusable element: one with a `tabindex`
  attribute, a form control or button, or a link with `href`; on any other element, such as
  a plain list item, the call does nothing.  Controls are taken to be enabled and rendered
  (styling is outside the source).
* A function that would throw a `TypeError` on a `null` element returns `none`.
* The fragment returned by `loadFragment` is an input of `decorate`.
-/

namespace Header

/-! ## Elements -/

/-- The data an element carries itself. -/
structure Node where
  tag : String
  id : String
  classes : List String
  attrs : List (String × String)
deriving DecidableEq

/-- An element with its element children. -/
inductive Element where
  | mk (node : Node) (children : List Element)

/-- A handle on an element: the child indices leading to it from the root. -/
abbrev Path := List Nat

namespace Element

/-- The element's own data. -/
def node : Element → Node
  | mk n _ => n

/-- `element.children`. -/
def children : Element → List Element
  | mk _ cs => cs

end Element

/-- Replace or add the value of key `k` in an attribute list. -/
def setKey (k v : String) : List (String × String) → List (String × String)
  | [] => [(k, v)]
  | (k1, v1) :: rest => if k1 = k then (k, v) :: rest else (k1, v1) :: setKey k v rest

/-- Value stored under key `k` in an attribute list. -/
def getKey (k : String) : List (String × String) → Option String
  | [] => none
  | (k1, v1) :: rest => if k1 = k then some v1 else getKey k rest

namespace Node

/-- `element.getAttribute(k)`; `none` is JavaScript `null`. -/
def getAttribute (n : Node) (k : String) : Option String :=
  getKey k n.attrs

/-- `element.setAttribute(k, v)`. -/
def setAttribute (k v : String) (n : Node) : Node :=
  { n with attrs := setKey k v n.attrs }

/-- `element.classList.add(c)`. -/
def classListAdd (c : String) (n : Node) : Node :=
  if c ∈ n.classes then n else { n with classes := n.classes ++ [c] }

/-- `element.classList.contains(c)`. -/
def hasClass (c : String) (n : Node) : Bool :=
  decide (c ∈ n.classes)

end Node

/-! ## Handles -/

/-- The element a handle points to, if the handle is valid. -/
def elemAt : Path → Element → Option Element
  | [], e => some e
  | i :: p, Element.mk _ cs =>
    match cs[i]? with
    | none => none
    | some c => elemAt p c

/-- The node data of the element a handle points to. -/
def nodeAt (p : Path) (e : Element) : Option Node :=
  (elemAt p e).map Element.node

/-- The nodes of the ancestors of the element at `p`, nearest first, followed by `acc`
(the ancestors of the root). -/
def ancestorsAt : Path → Element → List Node → List Node
  | [], _, acc => acc
  | i :: p, Element.mk n cs, acc =>
    match cs[i]? with
    | none => acc
    | some c => ancestorsAt p c (n :: acc)

/-- Apply `g` to the `i`-th element of a list of children. -/
def modifyChild (g : Element → Element) : Nat → List Element → List Element
  | _, [] => []
  | 0, c :: cs => g c :: cs
  | i + 1, c :: cs => c :: modifyChild g i cs

/-- Apply `f` to the node data of the element at handle `p` (nothing happens on an invalid
handle). -/
def updateAt (f : Node → Node) : Path → Element → Element
  | [], Element.mk n cs => Element.mk (f n) cs
  | i :: p, Element.mk n cs => Element.mk n (modifyChild (updateAt f p) i cs)

/-- `element.setAttribute(k, v)` on the element at handle `p`. -/
def setAttributeAt (k v : String) (p : Path) (doc : Element) : Element :=
  updateAt (Node.setAttribute k v) p doc

/-- `element.getAttribute(k)` on the element at handle `p`. -/
def getAttributeAt (k : String) (p : Path) (doc : Element) : Option String :=
  (nodeAt p doc).bind (fun n => n.getAttribute k)

/-! ## Selectors -/

/-- A selector is tested on the ancestors of an element (nearest first) and on the element's
own node. -/
abbrev Selector := List Node → Node → Bool

/-- Class selector `.c`. -/
def classSel (c : String) : Selector :=
  fun _ n => n.hasClass c

/-- Type selector `t`. -/
def tagSel (t : String) : Selector :=
  fun _ n => n.tag == t

/-- Attribute selector `[k="v"]`. -/
def attrSel (k v : String) : Selector :=
  fun _ n => n.getAttribute k == some v

/-- Child combinator between two type selectors, `t1 > t2`. -/
def childSel (t1 t2 : String) : Selector :=
  fun anc n => n.tag == t2 && (anc.head?.map (fun a => a.tag) == some t1)

/-- Descendant combinator between a class and a type selector, `.c t`. -/
def descSel (c t : String) : Selector :=
  fun anc n => n.tag == t && anc.any (fun a => a.hasClass c)

mutual
/-- Handles (relative to `e`) of the strict descendants of `e` matching `sel`, in document
order; `anc` are the ancestors of `e`. -/
def selectIn (sel : Selector) (anc : List Node) : Element → List Path
  | Element.mk n cs => selectList sel (n :: anc) 0 cs
/-- Handles of the matching elements among the children `cs` (numbered from `i`) and their
descendants, in document order. -/
def selectList (sel : Selector) (anc : List Node) (i : Nat) : List Element → List Path
  | [] => []
  | c :: cs =>
    ((if sel anc c.node then [[]] else []) ++ selectIn sel anc c).map (fun p => i :: p)
      ++ selectList sel anc (i + 1) cs
end

/-- `ctx.querySelectorAll(sel)`: handles, relative to the root of `doc`, of the matching strict
descendants of the element at `ctx`, in document order. -/
def querySelectorAll (sel : Selector) (doc : Element) (ctx : Path) : List Path :=
  match elemAt ctx doc with
  | none => []
  | some e => (selectIn sel (ancestorsAt ctx doc []) e).map (fun p => ctx ++ p)

/-- `ctx.querySelector(sel)`: the first match in document order, `none` for `null`. -/
def querySelector (sel : Selector) (doc : Element) (ctx : Path) : Option Path :=
  (querySelectorAll sel doc ctx).head?

/-- Document order on handles below a common root: an element precedes its descendants,
and the subtree of an earlier sibling precedes the subtree of a later one. -/
def precedes : Path → Path → Bool
  | [], [] => false
  | [], _ :: _ => true
  | _ :: _, [] => false
  | i :: p, j :: q => decide (i < j) || (i == j && precedes p q)

/-- A selector that only looks at `proj` of the nodes it is given. -/
def Selector.Respects {β : Type} (sel : Selector) (proj : Node → β) : Prop :=
  ∀ a a2 n n2, a.map proj = a2.map proj → proj n = proj n2 → sel a n = sel a2 n2

/-! ## Page state -/

/-- What the handlers of the block read and write. -/
structure Page where
  /-- The subtree of the element returned by `document.getElementById('nav')`. -/
  nav : Element
  /-- The value of `document.body.style.overflowY`. -/
  overflowY : String
  /-- The element (handle below `nav`) that has the keyboard focus, `document.activeElement`;
  `none` when the focus is outside the navigation (on the body, at first). -/
  focused : Option Path
  /-- The value of `isDesktop.matches`. -/
  desktop : Bool
  /-- The click listeners attached by `enableDropdowns`: the `navSections` element and the
  `dropdown` element captured by each listener. -/
  listeners : List (Path × Path)

/-- The string a boolean becomes when it is stored as an attribute value. -/
def jsString (b : Bool) : String :=
  if b then "true" else "false"

/-- `handles.forEach(callback)` over a static list of element handles. -/
def forEach (handles : List Path) (callback : Path → Element → Element) (doc : Element) :
    Element :=
  handles.foldl (fun d h => callback h d) doc

/-- Whether `element.focus()` gives the element the keyboard focus: it has a `tabindex`, or
it is a button or form control, or a link with an `href`. -/
def Node.focusable (n : Node) : Bool :=
  (n.getAttribute "tabindex").isSome || n.tag == "button" || n.tag == "input" ||
    n.tag == "select" || n.tag == "textarea" ||
    (n.tag == "a" && (n.getAttribute "href").isSome)

/-- `element.focus()` on the element at handle `p`: the focus moves there when the element is
focusable and stays where it is otherwise. -/
def focusAt (p : Path) (s : Page) : Page :=
  { s with focused :=
      match nodeAt p s.nav with
      | some n => if n.focusable then some p else s.focused
      | none => s.focused }

/-! ## The functions of `header.js` -/

/-- `toggleAllSections(nav, expanded)`, lines 32-36; `nav` is the handle of the context
element inside `doc`. -/
def toggleAllSections (doc : Element) (nav : Path) (expanded : Bool) : Element :=
  forEach (querySelectorAll (classSel "nav-drop") doc nav)
    (fun sec d => setAttributeAt "aria-expanded" (jsString expanded) sec d) doc

/-- `toggleMenu(nav, forceExpanded)`, lines 43-53.  `forceExpanded = none` is the default
`null`.  The result is `none` when `nav.querySelector('.nav-hamburger button')` is `null`, in
which case line 50 throws a `TypeError` (after the writes of lines 48-49). -/
def toggleMenu (s : Page) (forceExpanded : Option Bool) : Option Page :=
  let isCurrentlyExpanded : Bool := s.nav.node.getAttribute "aria-expanded" == some "true"
  let expanded : Bool :=
    match forceExpanded with
    | some b => b
    | none => !isCurrentlyExpanded
  match querySelector (descSel "nav-hamburger" "button") s.nav [] with
  | none => none
  | some hamburgerButton =>
    let nav1 := setAttributeAt "aria-expanded" (if expanded then "true" else "false") [] s.nav
    let overflowY := if expanded && !s.desktop then "hidden" else ""
    let nav2 := setAttributeAt "aria-label"
      (if expanded then "Close navigation" else "Open navigation") hamburgerButton nav1
    some { s with nav := toggleAllSections nav2 [] (expanded || s.desktop), overflowY := overflowY }

/-- `closeOnEscape(e)`, lines 10-25; `code` is `e.code`. -/
def closeOnEscape (code : String) (s : Page) : Option Page :=
  if code = "Escape" then
    match querySelector (attrSel "aria-expanded" "true") s.nav [] with
    | none => some s
    | some expandedSection =>
      if s.desktop then
        some (focusAt expandedSection { s with nav := toggleAllSections s.nav [] false })
      else
        match toggleMenu s (some false) with
        | none => none
        | some s1 =>
          match querySelector (descSel "nav-hamburger" "button") s1.nav [] with
          | none => none
          | some button => some (focusAt button s1)
  else some s

/-- The click listener that `enableDropdowns` attaches to `dropdown`, lines 63-67. -/
def dropdownClick (navSections dropdown : Path) (doc : Element) : Element :=
  let expanded : Bool := getAttributeAt "aria-expanded" dropdown doc == some "true"
  let doc1 := toggleAllSections doc navSections false
  setAttributeAt "aria-expanded" (if expanded then "false" else "true") dropdown doc1

/-- `enableDropdowns(nav)`, lines 59-72: the click listeners it attaches.  On non-desktop
the `removeEventListener` call names a fresh function and removes nothing.  The result is
`none` when `nav.querySelector('.nav-sections')` is `null` (line 61 throws). -/
def enableDropdowns (desktop : Bool) (nav : Element) : Option (List (Path × Path)) :=
  match querySelector (classSel "nav-sections") nav [] with
  | none => none
  | some navSections =>
    some ((querySelectorAll (classSel "nav-drop") nav navSections).filterMap
      (fun dropdown => if desktop then some (navSections, dropdown) else none))

/-- The hamburger control built at lines 109-115. -/
def hamburger : Element :=
  Element.mk ⟨"div", "", ["nav-hamburger"], []⟩
    [Element.mk ⟨"button", "", [], [("type", "button"), ("aria-label", "Open navigation")]⟩
      [Element.mk ⟨"span", "", ["nav-hamburger-icon"], []⟩ []]]

/-- Lines 91-94: the first three children of `nav` get the classes `nav-brand`,
`nav-sections`, `nav-tools`. -/
def classify (nav : Element) : Element :=
  (["brand", "sections", "tools"].enum).foldl
    (fun d ic =>
      match elemAt [ic.1] d with
      | some _ => updateAt (Node.classListAdd ("nav-" ++ ic.2)) [ic.1] d
      | none => d)
    nav

/-- Lines 101-102 on one list item: `li.classList.add('nav-drop')` followed by
`li.setAttribute('aria-expanded', 'false')`. -/
def markDropdown (li : Node) : Node :=
  (li.classListAdd "nav-drop").setAttribute "aria-expanded" "false"

/-- Lines 99-104: every `ul > li` below `navSections` that has a `ul` descendant gets the
class `nav-drop` and `aria-expanded="false"`. -/
def markDropdowns (navSections : Path) (nav : Element) : Element :=
  forEach (querySelectorAll (childSel "ul" "li") nav navSections)
    (fun li d =>
      match querySelector (tagSel "ul") d li with
      | some _ => updateAt markDropdown li d
      | none => d)
    nav

/-- `nav.prepend(child)`. -/
def prependChild (child : Element) : Element → Element
  | Element.mk n cs => Element.mk n (child :: cs)

/-- The handle of an element of `nav` after one child was prepended to `nav`. -/
def shiftHandle : Path → Path
  | [] => []
  | i :: p => (i + 1) :: p

/-- Lines 86-88: the new `nav` element, holding the element children of the fragment in
their order. -/
def createNav (fragment : Element) : Element :=
  Element.mk ⟨"nav", "nav", [], []⟩ fragment.children

/-- Lines 117-118: the hamburger is prepended and the container starts collapsed. -/
def finishNav (nav : Element) : Element :=
  setAttributeAt "aria-expanded" "false" [] (prependChild hamburger nav)

/-- Lines 86-118 of `decorate`: the `nav` element built from the element children of the
loaded fragment, and the click listeners attached to its dropdowns (handles below the
finished `nav`). -/
def decorateNav (desktop : Bool) (fragment : Element) : Option (Element × List (Path × Path)) :=
  let nav1 := classify (createNav fragment)
  let marked : Option (Element × List (Path × Path)) :=
    match querySelector (classSel "nav-sections") nav1 [] with
    | some navSections =>
      let nav2 := markDropdowns navSections nav1
      (enableDropdowns desktop nav2).map (fun ls => (nav2, ls))
    | none => some (nav1, [])
  marked.map (fun r =>
    (finishNav r.1, r.2.map (fun l => (shiftHandle l.1, shiftHandle l.2))))

/-- `decorate(block)`, lines 78-131, given the fragment returned by `loadFragment`: the block
after decoration. -/
def decorate (desktop : Bool) (block fragment : Element) : Option Element :=
  (decorateNav desktop fragment).map (fun r =>
    Element.mk block.node [Element.mk ⟨"div", "", ["nav-wrapper"], []⟩ [r.1]])

/-- The page state once `decorate` has finished; `overflowY` and `focused` are whatever
they were before. -/
def decoratedPage (desktop : Bool) (fragment : Element) (overflowY : String)
    (focused : Option Path) : Option Page :=
  (decorateNav desktop fragment).map (fun r =>
    { nav := r.1, overflowY := overflowY, focused := focused, desktop := desktop,
      listeners := r.2 })

/-! ## Events -/

/-- The handler registered on the media query at line 121. -/
def onViewportChange (s : Page) : Option Page :=
  toggleMenu s (some s.desktop)

/-- The events the block listens to. -/
inductive Event where
  /-- A click on the hamburger control (line 116). -/
  | hamburgerClick
  /-- The media query changes its value (line 121). -/
  | viewportChange
  /-- The click listener with the captured `navSections` and `dropdown` runs. -/
  | dropdownClick (navSections dropdown : Path)
  /-- A `keydown` with the given `code` (line 130). -/
  | keydown (code : String)

/-- One event. -/
def step (s : Page) : Event → Option Page
  | Event.hamburgerClick => toggleMenu s none
  | Event.viewportChange => onViewportChange { s with desktop := !s.desktop }
  | Event.dropdownClick navSections dropdown =>
    if (navSections, dropdown) ∈ s.listeners then
      some { s with nav := dropdownClick navSections dropdown s.nav }
    else some s
  | Event.keydown code => closeOnEscape code s

/-- A sequence of events. -/
def run (s : Page) : List Event → Option Page
  | [] => some s
  | ev :: evs => (step s ev).bind (fun s1 => run s1 evs)

/-- No element of the fragment carries the class `nav-sections` or `nav-drop` before it is
decorated: `fragment.querySelectorAll('.nav-sections')` and
`fragment.querySelectorAll('.nav-drop')` are empty. -/
def Unmarked (fragment : Element) : Prop :=
  querySelectorAll (classSel "nav-sections") fragment [] = [] ∧
    querySelectorAll (classSel "nav-drop") fragment [] = []

/-- At most one dropdown section (`.nav-drop` below the navigation) has `aria-expanded`
"true". -/
def AtMostOneExpanded (nav : Element) : Prop :=
  ∀ p ∈ querySelectorAll (classSel "nav-drop") nav [],
    ∀ q ∈ querySelectorAll (classSel "nav-drop") nav [],
      getAttributeAt "aria-expanded" p nav = some "true" →
      getAttributeAt "aria-expanded" q nav = some "true" → p = q

/-- The click listeners all captured the same `navSections`, each sits on a `.nav-drop` below
it, and no `.nav-drop` of the navigation outside of it is expanded. -/
def ListenersCover (s : Page) : Prop :=
  ∃ sec : Path,
    (∀ l ∈ s.listeners,
      l.1 = sec ∧ l.2 ∈ querySelectorAll (classSel "nav-drop") s.nav sec) ∧
    (∀ q ∈ querySelectorAll (classSel "nav-drop") s.nav [],
      q ∉ querySelectorAll (classSel "nav-drop") s.nav sec →
      getAttributeAt "aria-expanded" q s.nav ≠ some "true")

/-- Dropdown clicks and keydowns: the events whose handlers do not start with `toggleMenu`. -/
def Event.isDropdownOrKey : Event → Bool
  | Event.dropdownClick _ _ => true
  | Event.keydown _ => true
  | Event.hamburgerClick => false
  | Event.viewportChange => false

/-! ## Example inputs -/

/-- An element with no id, class or attribute. -/
def plain (tag : String) (children : List Element) : Element :=
  Element.mk ⟨tag, "", [], []⟩ children

/-- A fragment with a brand area, a sections area holding two dropdowns and a plain item, and
a tools area with a nested list of its own. -/
def exampleFragment : Element :=
  plain "main"
    [plain "div" [plain "p" []],
     plain "div"
      [plain "ul"
        [plain "li" [plain "ul" [plain "li" []]],
         plain "li" [plain "ul" [plain "li" []]],
         plain "li" []]],
     plain "div" [plain "ul" [plain "li" [plain "ul" [plain "li" []]]]]]

/-- A fragment without any nested list: a brand area and a flat list of links. -/
def flatFragment : Element :=
  plain "main"
    [plain "div" [plain "p" []],
     plain "div" [plain "ul" [plain "li" [], plain "li" []]]]

/-- A fragment whose only top-level child already carries the class `nav-sections`. -/
def presetFragment : Element :=
  plain "main"
    [Element.mk ⟨"div", "", ["nav-sections"], []⟩
      [plain "ul" [plain "li" [plain "ul" [plain "li" []]]]]]

/-- The page right after `decorate` ran on `fragment`, with the scroll lock released and
nothing focused. -/
def pageOf (desktop : Bool) (fragment : Element) : Page :=
  match decoratedPage desktop fragment "" none with
  | some s => s
  | none => { nav := fragment, overflowY := "", focused := none, desktop := desktop,
              listeners := [] }

/-! ## Attribute lists -/

theorem getKey_setKey_same (k v : String) (l : List (String × String)) :
    getKey k (setKey k v l) = some v := by
  induction l with
  | nil => simp [setKey, getKey]
  | cons a rest ih =>
    obtain ⟨k1, v1⟩ := a
    by_cases h : k1 = k
    · simp [setKey, getKey, h]
    · simp [setKey, getKey, h, ih]

theorem getKey_setKey_ne (k k2 v : String) (l : List (String × String)) (hk : k2 ≠ k) :
    getKey k2 (setKey k v l) = getKey k2 l := by
  induction l with
  | nil => simp [setKey, getKey, Ne.symm hk]
  | cons a rest ih =>
    obtain ⟨k1, v1⟩ := a
    by_cases h : k1 = k
    · subst h
      simp [setKey, getKey, Ne.symm hk]
    · by_cases h2 : k1 = k2
      · subst h2
        simp [setKey, getKey, h]
      · simp [setKey, getKey, h, h2, ih]

theorem getAttribute_setAttribute_same (k v : String) (n : Node) :
    (n.setAttribute k v).getAttribute k = some v := by
  simp [Node.getAttribute, Node.setAttribute, getKey_setKey_same]

theorem getAttribute_setAttribute_ne (k k2 v : String) (n : Node) (hk : k2 ≠ k) :
    (n.setAttribute k v).getAttribute k2 = n.getAttribute k2 := by
  simp [Node.getAttribute, Node.setAttribute, getKey_setKey_ne _ _ _ _ hk]

theorem tag_setAttribute (k v : String) (n : Node) : (n.setAttribute k v).tag = n.tag := rfl

theorem classes_setAttribute (k v : String) (n : Node) :
    (n.setAttribute k v).classes = n.classes := rfl

theorem id_setAttribute (k v : String) (n : Node) : (n.setAttribute k v).id = n.id := rfl

theorem hasClass_setAttribute (c k v : String) (n : Node) :
    (n.setAttribute k v).hasClass c = n.hasClass c := rfl

theorem tag_classListAdd (c : String) (n : Node) : (n.classListAdd c).tag = n.tag := by
  unfold Node.classListAdd
  split <;> rfl

theorem id_classListAdd (c : String) (n : Node) : (n.classListAdd c).id = n.id := by
  unfold Node.classListAdd
  split <;> rfl

theorem attrs_classListAdd (c : String) (n : Node) : (n.classListAdd c).attrs = n.attrs := by
  unfold Node.classListAdd
  split <;> rfl

theorem getAttribute_classListAdd (c k : String) (n : Node) :
    (n.classListAdd c).getAttribute k = n.getAttribute k := by
  simp [Node.getAttribute, attrs_classListAdd]

theorem mem_classes_classListAdd (c c2 : String) (n : Node) :
    c2 ∈ (n.classListAdd c).classes ↔ c2 = c ∨ c2 ∈ n.classes := by
  unfold Node.classListAdd
  split
  · constructor
    · intro h; exact Or.inr h
    · rintro (h | h)
      · subst h; assumption
      · exact h
  · simp [or_comm]

theorem hasClass_iff (c : String) (n : Node) : n.hasClass c = true ↔ c ∈ n.classes := by
  simp [Node.hasClass]

/-! ## Handles -/

theorem modifyChild_getElem? (g : Element → Element) (i j : Nat) (cs : List Element) :
    (modifyChild g i cs)[j]? = if j = i then cs[j]?.map g else cs[j]? := by
  induction cs generalizing i j with
  | nil => simp [modifyChild]
  | cons c cs ih =>
    cases i with
    | zero =>
      cases j with
      | zero => simp [modifyChild]
      | succ j => simp [modifyChild]
    | succ i =>
      cases j with
      | zero => simp [modifyChild]
      | succ j => simp [modifyChild, ih]

theorem length_modifyChild (g : Element → Element) (i : Nat) (cs : List Element) :
    (modifyChild g i cs).length = cs.length := by
  induction cs generalizing i with
  | nil => simp [modifyChild]
  | cons c cs ih =>
    cases i with
    | zero => simp [modifyChild]
    | succ i => simp [modifyChild, ih]

theorem nodeAt_nil (e : Element) : nodeAt [] e = some e.node := rfl

theorem elemAt_cons (i : Nat) (p : Path) (n : Node) (cs : List Element) :
    elemAt (i :: p) (Element.mk n cs) = cs[i]?.bind (elemAt p) := by
  simp only [elemAt]
  cases cs[i]? <;> rfl

theorem nodeAt_cons (i : Nat) (p : Path) (n : Node) (cs : List Element) :
    nodeAt (i :: p) (Element.mk n cs) = cs[i]?.bind (nodeAt p) := by
  simp only [nodeAt, elemAt_cons]
  cases cs[i]? <;> rfl

theorem ancestorsAt_cons (i : Nat) (p : Path) (n : Node) (cs : List Element) (acc : List Node) :
    ancestorsAt (i :: p) (Element.mk n cs) acc
      = match cs[i]? with
        | none => acc
        | some c => ancestorsAt p c (n :: acc) := rfl

theorem elemAt_append (p q : Path) (e : Element) :
    elemAt (p ++ q) e = (elemAt p e).bind (elemAt q) := by
  induction p generalizing e with
  | nil => rfl
  | cons i p ih =>
    obtain ⟨n, cs⟩ := e
    simp only [List.cons_append, elemAt_cons]
    cases cs[i]? with
    | none => rfl
    | some c => simpa using ih c

theorem nodeAt_append (p q : Path) (e : Element) :
    nodeAt (p ++ q) e = (elemAt p e).bind (nodeAt q) := by
  simp only [nodeAt, elemAt_append]
  cases elemAt p e <;> rfl

theorem nodeAt_updateAt (f : Node → Node) (p q : Path) (e : Element) :
    nodeAt q (updateAt f p e) = if q = p then (nodeAt q e).map f else nodeAt q e := by
  induction p generalizing q e with
  | nil =>
    obtain ⟨n, cs⟩ := e
    cases q with
    | nil => simp [updateAt, nodeAt_nil, Element.node]
    | cons j q => simp [updateAt, nodeAt_cons]
  | cons i p ih =>
    obtain ⟨n, cs⟩ := e
    cases q with
    | nil => simp [updateAt, nodeAt_nil, Element.node]
    | cons j q =>
      simp only [updateAt, nodeAt_cons, modifyChild_getElem?]
      by_cases hji : j = i
      · subst hji
        cases hc : cs[j]? with
        | none => simp
        | some c =>
          simp [ih]
      · simp [hji]

theorem ancestorsAt_acc (p : Path) (e : Element) (acc : List Node) :
    ancestorsAt p e acc = ancestorsAt p e [] ++ acc := by
  induction p generalizing e acc with
  | nil => simp [ancestorsAt]
  | cons i p ih =>
    obtain ⟨n, cs⟩ := e
    simp only [ancestorsAt_cons]
    cases cs[i]? with
    | none => simp
    | some c =>
      show ancestorsAt p c (n :: acc) = ancestorsAt p c [n] ++ acc
      rw [ih c (n :: acc), ih c [n]]
      simp

theorem ancestorsAt_append (p q : Path) (e c : Element) (acc : List Node)
    (h : elemAt p e = some c) :
    ancestorsAt (p ++ q) e acc = ancestorsAt q c (ancestorsAt p e acc) := by
  induction p generalizing e acc with
  | nil =>
    simp only [elemAt, Option.some.injEq] at h
    subst h
    rfl
  | cons i p ih =>
    obtain ⟨n, cs⟩ := e
    rw [elemAt_cons] at h
    simp only [List.cons_append, ancestorsAt_cons]
    cases hc : cs[i]? with
    | none => simp [hc] at h
    | some d =>
      have h2 : elemAt p d = some c := by simpa [hc] using h
      simpa [hc] using ih d (n :: acc) h2

/-! ## Selection -/

mutual
theorem mem_selectIn (sel : Selector) (anc : List Node) (r : Path) :
    ∀ e : Element, r ∈ selectIn sel anc e ↔
      r ≠ [] ∧ ∃ m, nodeAt r e = some m ∧ sel (ancestorsAt r e anc) m = true
  | Element.mk n cs => by
    rw [selectIn, mem_selectList sel (n :: anc) 0 r cs]
    constructor
    · rintro ⟨j, r1, c, rfl, hc, m, hm, hs⟩
      refine ⟨by simp, m, ?_, ?_⟩
      · simp [nodeAt_cons, hc, hm]
      · simpa [ancestorsAt_cons, hc] using hs
    · rintro ⟨hr, m, hm, hs⟩
      cases r with
      | nil => exact absurd rfl hr
      | cons j r1 =>
        rw [nodeAt_cons] at hm
        cases hc : cs[j]? with
        | none => simp [hc] at hm
        | some c =>
          refine ⟨j, r1, c, by simp, hc, m, ?_, ?_⟩
          · simpa [hc] using hm
          · simpa [ancestorsAt_cons, hc] using hs
theorem mem_selectList (sel : Selector) (anc : List Node) (i : Nat) (q : Path) :
    ∀ cs : List Element, q ∈ selectList sel anc i cs ↔
      ∃ j r c, q = (i + j) :: r ∧ cs[j]? = some c ∧
        ∃ m, nodeAt r c = some m ∧ sel (ancestorsAt r c anc) m = true
  | [] => by simp [selectList]
  | c :: cs => by
    rw [selectList, List.mem_append, mem_selectList sel anc (i + 1) q cs, List.mem_map]
    constructor
    · rintro (⟨r, hr, rfl⟩ | ⟨j, r, d, rfl, hd, m, hm, hs⟩)
      · refine ⟨0, r, c, by simp, by simp, ?_⟩
        rw [List.mem_append] at hr
        rcases hr with hr | hr
        · by_cases hsel : sel anc c.node = true
          · simp only [hsel, if_true, List.mem_singleton] at hr
            subst hr
            exact ⟨c.node, rfl, by simpa [ancestorsAt] using hsel⟩
          · simp [hsel] at hr
        · exact ((mem_selectIn sel anc r c).1 hr).2
      · exact ⟨j + 1, r, d, by simp; omega, by simpa using hd, m, hm, hs⟩
    · rintro ⟨j, r, d, rfl, hd, m, hm, hs⟩
      cases j with
      | zero =>
        left
        simp only [List.getElem?_cons_zero, Option.some.injEq] at hd
        subst hd
        refine ⟨r, ?_, by simp⟩
        rw [List.mem_append]
        cases r with
        | nil =>
          left
          simp only [nodeAt_nil, Option.some.injEq] at hm
          subst hm
          simp only [ancestorsAt] at hs
          simp [hs]
        | cons k r1 =>
          right
          exact (mem_selectIn sel anc (k :: r1) c).2 ⟨by simp, m, hm, hs⟩
      | succ j =>
        right
        exact ⟨j, r, d, by simp; omega, by simpa using hd, m, hm, hs⟩
end

/-! ## Document order -/

theorem precedes_irrefl (p : Path) : precedes p p = false := by
  induction p with
  | nil => rfl
  | cons i p ih => simp [precedes, ih]

theorem precedes_trans (p q r : Path) (h1 : precedes p q = true) (h2 : precedes q r = true) :
    precedes p r = true := by
  induction p generalizing q r with
  | nil =>
    cases q with
    | nil => simp [precedes] at h1
    | cons j q =>
      cases r with
      | nil => simp [precedes] at h2
      | cons k r => rfl
  | cons i p ih =>
    cases q with
    | nil => simp [precedes] at h1
    | cons j q =>
      cases r with
      | nil => simp [precedes] at h2
      | cons k r =>
        simp only [precedes, Bool.or_eq_true, decide_eq_true_eq, Bool.and_eq_true,
          beq_iff_eq] at h1 h2 ⊢
        rcases h1 with h1 | ⟨h1, h1p⟩
        · rcases h2 with h2 | ⟨h2, _⟩
          · left; omega
          · left; omega
        · rcases h2 with h2 | ⟨h2, h2p⟩
          · left; omega
          · right
            exact ⟨by omega, ih q r h1p h2p⟩

theorem precedes_cons (i : Nat) (p q : Path) : precedes (i :: p) (i :: q) = precedes p q := by
  simp [precedes]

theorem precedes_append (c p q : Path) : precedes (c ++ p) (c ++ q) = precedes p q := by
  induction c with
  | nil => rfl
  | cons i c ih => simp [precedes_cons, ih]

theorem precedes_nil_of_ne (p : Path) (h : p ≠ []) : precedes [] p = true := by
  cases p with
  | nil => exact absurd rfl h
  | cons i p => rfl

/-- Two lists of handles in strict document order with the same members are equal. -/
theorem eq_of_sorted_of_mem_iff (l1 l2 : List Path)
    (h1 : l1.Pairwise (fun p q => precedes p q = true))
    (h2 : l2.Pairwise (fun p q => precedes p q = true))
    (h : ∀ p, p ∈ l1 ↔ p ∈ l2) : l1 = l2 := by
  induction l1 generalizing l2 with
  | nil =>
    cases l2 with
    | nil => rfl
    | cons b l2 => exact absurd ((h b).2 (List.mem_cons_self _ _)) (List.not_mem_nil _)
  | cons a l1 ih =>
    cases l2 with
    | nil => exact absurd ((h a).1 (List.mem_cons_self _ _)) (List.not_mem_nil _)
    | cons b l2 =>
      rw [List.pairwise_cons] at h1 h2
      have hab : a = b := by
        have ha : a ∈ b :: l2 := (h a).1 (List.mem_cons_self _ _)
        have hb : b ∈ a :: l1 := (h b).2 (List.mem_cons_self _ _)
        rcases List.mem_cons.1 ha with ha | ha
        · exact ha
        · rcases List.mem_cons.1 hb with hb | hb
          · exact hb.symm
          · have e1 := h2.1 a ha
            have e2 := h1.1 b hb
            have e3 := precedes_trans a b a e2 e1
            rw [precedes_irrefl] at e3
            exact absurd e3 (by simp)
      subst hab
      congr 1
      apply ih l2 h1.2 h2.2
      intro p
      constructor
      · intro hp
        rcases List.mem_cons.1 ((h p).1 (List.mem_cons_of_mem _ hp)) with e | e
        · subst e
          have := h1.1 p hp
          rw [precedes_irrefl] at this
          exact absurd this (by simp)
        · exact e
      · intro hp
        rcases List.mem_cons.1 ((h p).2 (List.mem_cons_of_mem _ hp)) with e | e
        · subst e
          have := h2.1 p hp
          rw [precedes_irrefl] at this
          exact absurd this (by simp)
        · exact e

theorem nodup_of_sorted (l : List Path) (h : l.Pairwise (fun p q => precedes p q = true)) :
    l.Nodup := by
  refine List.Pairwise.imp ?_ h
  intro a b hab e
  subst e
  rw [precedes_irrefl] at hab
  exact absurd hab (by simp)

mutual
theorem sorted_selectIn (sel : Selector) (anc : List Node) :
    ∀ e : Element, (selectIn sel anc e).Pairwise (fun p q => precedes p q = true)
  | Element.mk n cs => by
    rw [selectIn]
    exact sorted_selectList sel (n :: anc) 0 cs
theorem sorted_selectList (sel : Selector) (anc : List Node) (i : Nat) :
    ∀ cs : List Element, (selectList sel anc i cs).Pairwise (fun p q => precedes p q = true)
  | [] => by simp [selectList]
  | c :: cs => by
    rw [selectList, List.pairwise_append]
    refine ⟨?_, sorted_selectList sel anc (i + 1) cs, ?_⟩
    · rw [List.pairwise_map]
      simp only [precedes_cons]
      rw [List.pairwise_append]
      refine ⟨?_, sorted_selectIn sel anc c, ?_⟩
      · split <;> simp
      · intro a ha b hb
        have hb2 := ((mem_selectIn sel anc b c).1 hb).1
        split at ha
        · simp only [List.mem_singleton] at ha
          subst ha
          exact precedes_nil_of_ne b hb2
        · simp at ha
    · intro a ha b hb
      rw [List.mem_map] at ha
      obtain ⟨p, _, rfl⟩ := ha
      obtain ⟨j, r, d, rfl, _⟩ := (mem_selectList sel anc (i + 1) b cs).1 hb
      simp [precedes]
      left; omega
end

theorem sorted_querySelectorAll (sel : Selector) (doc : Element) (ctx : Path) :
    (querySelectorAll sel doc ctx).Pairwise (fun p q => precedes p q = true) := by
  unfold querySelectorAll
  cases elemAt ctx doc with
  | none => simp
  | some e =>
    simp only
    rw [List.pairwise_map]
    simp only [precedes_append]
    exact sorted_selectIn sel _ e

theorem nodup_querySelectorAll (sel : Selector) (doc : Element) (ctx : Path) :
    (querySelectorAll sel doc ctx).Nodup :=
  nodup_of_sorted _ (sorted_querySelectorAll sel doc ctx)

theorem mem_querySelectorAll (sel : Selector) (doc : Element) (ctx q : Path) :
    q ∈ querySelectorAll sel doc ctx ↔
      ∃ r, r ≠ [] ∧ q = ctx ++ r ∧
        ∃ m, nodeAt q doc = some m ∧ sel (ancestorsAt q doc []) m = true := by
  unfold querySelectorAll
  cases he : elemAt ctx doc with
  | none =>
    simp only [List.not_mem_nil, false_iff]
    rintro ⟨r, _, rfl, m, hm, _⟩
    rw [nodeAt_append, he] at hm
    simp at hm
  | some e =>
    simp only [List.mem_map, mem_selectIn]
    constructor
    · rintro ⟨r, ⟨hr, m, hm, hs⟩, rfl⟩
      refine ⟨r, hr, rfl, m, ?_, ?_⟩
      · rw [nodeAt_append, he]; exact hm
      · rw [ancestorsAt_append ctx r doc e [] he]; exact hs
    · rintro ⟨r, hr, rfl, m, hm, hs⟩
      refine ⟨r, ⟨hr, m, ?_, ?_⟩, rfl⟩
      · rw [nodeAt_append, he] at hm; exact hm
      · rw [ancestorsAt_append ctx r doc e [] he] at hs; exact hs

/-- The match returned by `querySelector` is a match, and no match precedes it. -/
theorem querySelector_first (sel : Selector) (doc : Element) (ctx p : Path)
    (h : querySelector sel doc ctx = some p) :
    p ∈ querySelectorAll sel doc ctx ∧
      ∀ q ∈ querySelectorAll sel doc ctx, q ≠ p → precedes p q = true := by
  unfold querySelector at h
  have hs := sorted_querySelectorAll sel doc ctx
  cases hl : querySelectorAll sel doc ctx with
  | nil => simp [hl] at h
  | cons a l =>
    rw [hl] at h hs
    simp only [List.head?_cons, Option.some.injEq] at h
    subst h
    rw [List.pairwise_cons] at hs
    refine ⟨List.mem_cons_self _ _, ?_⟩
    intro q hq hne
    rcases List.mem_cons.1 hq with e | e
    · exact absurd e hne
    · exact hs.1 q e

theorem querySelector_eq_none (sel : Selector) (doc : Element) (ctx : Path) :
    querySelector sel doc ctx = none ↔ querySelectorAll sel doc ctx = [] := by
  unfold querySelector
  cases querySelectorAll sel doc ctx <;> simp

/-! ## Updates and queries -/

theorem ancestorsAt_updateAt {β : Type} (proj : Node → β) (f : Node → Node)
    (hf : ∀ n, proj (f n) = proj n) (p q : Path) (e : Element) (acc : List Node) :
    (ancestorsAt q (updateAt f p e) acc).map proj = (ancestorsAt q e acc).map proj := by
  induction q generalizing p e acc with
  | nil => rfl
  | cons j q ih =>
    obtain ⟨n, cs⟩ := e
    cases p with
    | nil =>
      simp only [updateAt, ancestorsAt_cons]
      cases cs[j]? with
      | none => rfl
      | some c =>
        show (ancestorsAt q c (f n :: acc)).map proj = (ancestorsAt q c (n :: acc)).map proj
        rw [ancestorsAt_acc q c (f n :: acc), ancestorsAt_acc q c (n :: acc)]
        simp [hf]
    | cons i p =>
      simp only [updateAt, ancestorsAt_cons, modifyChild_getElem?]
      by_cases hji : j = i
      · subst hji
        cases cs[j]? with
        | none => simp
        | some c => simpa using ih p c (n :: acc)
      · simp [hji]

theorem querySelectorAll_updateAt {β : Type} (proj : Node → β) (sel : Selector)
    (hsel : sel.Respects proj) (f : Node → Node) (hf : ∀ n, proj (f n) = proj n)
    (p : Path) (doc : Element) (ctx : Path) :
    querySelectorAll sel (updateAt f p doc) ctx = querySelectorAll sel doc ctx := by
  apply eq_of_sorted_of_mem_iff _ _ (sorted_querySelectorAll _ _ _)
    (sorted_querySelectorAll _ _ _)
  intro q
  simp only [mem_querySelectorAll, nodeAt_updateAt]
  have ha := ancestorsAt_updateAt proj f hf p q doc []
  constructor
  · rintro ⟨r, hr, rfl, m, hm, hs⟩
    refine ⟨r, hr, rfl, ?_⟩
    split at hm
    · cases hn : nodeAt (ctx ++ r) doc with
      | none => simp [hn] at hm
      | some m2 =>
        simp only [hn, Option.map_some', Option.some.injEq] at hm
        subst hm
        exact ⟨m2, rfl, by rw [← hs]; exact hsel _ _ _ _ ha.symm (hf m2).symm⟩
    · exact ⟨m, hm, by rw [← hs]; exact hsel _ _ _ _ ha.symm rfl⟩
  · rintro ⟨r, hr, rfl, m, hm, hs⟩
    refine ⟨r, hr, rfl, ?_⟩
    split
    · exact ⟨f m, by simp [hm], by rw [← hs]; exact hsel _ _ _ _ ha (hf m)⟩
    · exact ⟨m, hm, by rw [← hs]; exact hsel _ _ _ _ ha rfl⟩

theorem querySelector_updateAt {β : Type} (proj : Node → β) (sel : Selector)
    (hsel : sel.Respects proj) (f : Node → Node) (hf : ∀ n, proj (f n) = proj n)
    (p : Path) (doc : Element) (ctx : Path) :
    querySelector sel (updateAt f p doc) ctx = querySelector sel doc ctx := by
  unfold querySelector
  rw [querySelectorAll_updateAt proj sel hsel f hf]

/-! ## `forEach` -/

theorem forEach_nil (cb : Path → Element → Element) (doc : Element) :
    forEach [] cb doc = doc := rfl

theorem forEach_cons (h : Path) (hs : List Path) (cb : Path → Element → Element)
    (doc : Element) : forEach (h :: hs) cb doc = forEach hs cb (cb h doc) := rfl

/-- A `forEach` whose callback updates the node of its element when a condition holds,
the condition being unaffected by such updates. -/
theorem nodeAt_forEach (f : Node → Node) (c : Element → Path → Bool)
    (hc : ∀ d h h2, c (updateAt f h2 d) h = c d h)
    (hs : List Path) (hnd : hs.Nodup) (doc : Element) (q : Path) :
    nodeAt q (forEach hs (fun h d => if c d h then updateAt f h d else d) doc)
      = if q ∈ hs ∧ c doc q = true then (nodeAt q doc).map f else nodeAt q doc := by
  induction hs generalizing doc with
  | nil => simp [forEach_nil]
  | cons h hs ih =>
    rw [List.nodup_cons] at hnd
    rw [forEach_cons, ih hnd.2]
    by_cases hch : c doc h = true
    · simp only [hch, if_true, hc, nodeAt_updateAt]
      by_cases hqh : q = h
      · subst hqh
        simp [hnd.1, hch]
      · simp [hqh]
    · simp only [hch]
      by_cases hqh : q = h
      · subst hqh
        simp [hnd.1, hch]
      · simp [hqh]

theorem nodeAt_forEach_update (f : Node → Node) (hs : List Path) (hnd : hs.Nodup)
    (doc : Element) (q : Path) :
    nodeAt q (forEach hs (fun h d => updateAt f h d) doc)
      = if q ∈ hs then (nodeAt q doc).map f else nodeAt q doc := by
  have := nodeAt_forEach f (fun _ _ => true) (fun _ _ _ => rfl) hs hnd doc q
  simpa using this

/-- Queries that do not see what the callback changes are unaffected by a `forEach`. -/
theorem querySelectorAll_forEach {β : Type} (proj : Node → β) (sel : Selector)
    (hsel : sel.Respects proj) (f : Node → Node) (hf : ∀ n, proj (f n) = proj n)
    (c : Element → Path → Bool) (hs : List Path) (doc : Element) (ctx : Path) :
    querySelectorAll sel (forEach hs (fun h d => if c d h then updateAt f h d else d) doc) ctx
      = querySelectorAll sel doc ctx := by
  induction hs generalizing doc with
  | nil => rfl
  | cons h hs ih =>
    rw [forEach_cons, ih]
    split
    · exact querySelectorAll_updateAt proj sel hsel f hf h doc ctx
    · rfl

theorem ancestorsAt_forEach {β : Type} (proj : Node → β) (f : Node → Node)
    (hf : ∀ n, proj (f n) = proj n) (c : Element → Path → Bool) (hs : List Path)
    (doc : Element) (q : Path) (acc : List Node) :
    (ancestorsAt q (forEach hs (fun h d => if c d h then updateAt f h d else d) doc) acc).map proj
      = (ancestorsAt q doc acc).map proj := by
  induction hs generalizing doc with
  | nil => rfl
  | cons h hs ih =>
    rw [forEach_cons, ih]
    split
    · exact ancestorsAt_updateAt proj f hf h q doc acc
    · rfl

/-! ## Selectors and what they look at -/

theorem respects_classSel (c : String) :
    (classSel c).Respects (fun n => (n.tag, n.classes)) := by
  intro a a2 n n2 _ h
  simp only [Prod.mk.injEq] at h
  simp [classSel, Node.hasClass, h.2]

theorem respects_tagSel (t : String) :
    (tagSel t).Respects (fun n => (n.tag, n.classes)) := by
  intro a a2 n n2 _ h
  simp only [Prod.mk.injEq] at h
  simp [tagSel, h.1]

theorem any_eq_of_map_eq {β : Type} (proj : Node → β) (g : β → Bool) :
    ∀ a a2 : List Node, a.map proj = a2.map proj →
      a.any (fun x => g (proj x)) = a2.any (fun x => g (proj x))
  | [], [], _ => rfl
  | [], _ :: _, h => by simp at h
  | _ :: _, [], h => by simp at h
  | x :: a, y :: a2, h => by
    simp only [List.map_cons, List.cons.injEq] at h
    simp only [List.any_cons, h.1, any_eq_of_map_eq proj g a a2 h.2]

theorem respects_descSel (c t : String) :
    (descSel c t).Respects (fun n => (n.tag, n.classes)) := by
  intro a a2 n n2 ha h
  simp only [Prod.mk.injEq] at h
  have h2 : a.any (fun x => x.hasClass c) = a2.any (fun x => x.hasClass c) :=
    any_eq_of_map_eq (fun n => (n.tag, n.classes)) (fun x => decide (c ∈ x.2)) a a2 ha
  simp [descSel, h.1, h2]

theorem mem_querySelectorAll_ne_nil (sel : Selector) (doc : Element) (q : Path)
    (h : q ∈ querySelectorAll sel doc []) : q ≠ [] := by
  obtain ⟨r, hr, rfl, _⟩ := (mem_querySelectorAll sel doc [] q).1 h
  simpa using hr

theorem mem_querySelectorAll_valid (sel : Selector) (doc : Element) (ctx q : Path)
    (h : q ∈ querySelectorAll sel doc ctx) : ∃ m, nodeAt q doc = some m := by
  obtain ⟨r, _, _, m, hm, _⟩ := (mem_querySelectorAll sel doc ctx q).1 h
  exact ⟨m, hm⟩

theorem mem_querySelectorAll_classSel (c : String) (doc : Element) (ctx q : Path) :
    q ∈ querySelectorAll (classSel c) doc ctx ↔
      ∃ r, r ≠ [] ∧ q = ctx ++ r ∧ ∃ m, nodeAt q doc = some m ∧ c ∈ m.classes := by
  simp [mem_querySelectorAll, classSel, Node.hasClass]

/-! ## `toggleAllSections` -/

theorem nodeAt_toggleAllSections (doc : Element) (ctx : Path) (b : Bool) (q : Path) :
    nodeAt q (toggleAllSections doc ctx b)
      = if q ∈ querySelectorAll (classSel "nav-drop") doc ctx
        then (nodeAt q doc).map (Node.setAttribute "aria-expanded" (jsString b))
        else nodeAt q doc := by
  unfold toggleAllSections setAttributeAt
  exact nodeAt_forEach_update _ _ (nodup_querySelectorAll _ _ _) doc q

theorem querySelectorAll_toggleAllSections (sel : Selector)
    (hsel : sel.Respects (fun n => (n.tag, n.classes))) (doc : Element) (ctx : Path)
    (b : Bool) (ctx2 : Path) :
    querySelectorAll sel (toggleAllSections doc ctx b) ctx2 = querySelectorAll sel doc ctx2 := by
  unfold toggleAllSections setAttributeAt
  have := querySelectorAll_forEach (fun n => (n.tag, n.classes)) sel hsel
    (Node.setAttribute "aria-expanded" (jsString b)) (fun _ => rfl) (fun _ _ => true)
    (querySelectorAll (classSel "nav-drop") doc ctx) doc ctx2
  simpa using this

theorem querySelectorAll_setAttributeAt (sel : Selector)
    (hsel : sel.Respects (fun n => (n.tag, n.classes))) (k v : String) (p : Path)
    (doc : Element) (ctx : Path) :
    querySelectorAll sel (setAttributeAt k v p doc) ctx = querySelectorAll sel doc ctx :=
  querySelectorAll_updateAt (fun n => (n.tag, n.classes)) sel hsel (Node.setAttribute k v)
    (fun _ => rfl) p doc ctx

theorem nodeAt_setAttributeAt (k v : String) (p q : Path) (doc : Element) :
    nodeAt q (setAttributeAt k v p doc)
      = if q = p then (nodeAt q doc).map (Node.setAttribute k v) else nodeAt q doc :=
  nodeAt_updateAt _ p q doc

/-- After `toggleAllSections(ctx, b)` every `.nav-drop` below `ctx` has `aria-expanded` equal
to the string of `b`. -/
theorem getAttributeAt_toggleAllSections_mem (doc : Element) (ctx : Path) (b : Bool) (q : Path)
    (hq : q ∈ querySelectorAll (classSel "nav-drop") doc ctx) :
    getAttributeAt "aria-expanded" q (toggleAllSections doc ctx b) = some (jsString b) := by
  obtain ⟨m, hm⟩ := mem_querySelectorAll_valid _ _ _ _ hq
  simp [getAttributeAt, nodeAt_toggleAllSections, hq, hm, getAttribute_setAttribute_same]

theorem getAttributeAt_toggleAllSections_not_mem (doc : Element) (ctx : Path) (b : Bool)
    (k : String) (q : Path) (hq : q ∉ querySelectorAll (classSel "nav-drop") doc ctx) :
    getAttributeAt k q (toggleAllSections doc ctx b) = getAttributeAt k q doc := by
  simp [getAttributeAt, nodeAt_toggleAllSections, hq]

theorem getAttributeAt_toggleAllSections_ne (doc : Element) (ctx : Path) (b : Bool)
    (k : String) (hk : k ≠ "aria-expanded") (q : Path) :
    getAttributeAt k q (toggleAllSections doc ctx b) = getAttributeAt k q doc := by
  simp only [getAttributeAt, nodeAt_toggleAllSections]
  split
  · cases nodeAt q doc with
    | none => rfl
    | some m => simp [getAttribute_setAttribute_ne _ _ _ _ hk]
  · rfl

/-! ## `toggleMenu` -/

/-- Everything `toggleMenu` does, for a navigation that has its hamburger button; `x` is the
local `expanded` of line 45. -/
theorem toggleMenu_facts (s : Page) (fe : Option Bool) (hb : Path)
    (hhb : querySelector (descSel "nav-hamburger" "button") s.nav [] = some hb) (x : Bool)
    (hx : x = match fe with
      | some b => b
      | none => !(s.nav.node.getAttribute "aria-expanded" == some "true")) :
    ∃ s1, toggleMenu s fe = some s1 ∧
      s1.desktop = s.desktop ∧ s1.focused = s.focused ∧ s1.listeners = s.listeners ∧
      s1.overflowY = (if x && !s.desktop then "hidden" else "") ∧
      s1.nav.node = s.nav.node.setAttribute "aria-expanded" (if x then "true" else "false") ∧
      getAttributeAt "aria-label" hb s1.nav
        = some (if x then "Close navigation" else "Open navigation") ∧
      (∀ sel : Selector, sel.Respects (fun n => (n.tag, n.classes)) →
        ∀ ctx, querySelectorAll sel s1.nav ctx = querySelectorAll sel s.nav ctx) ∧
      (∀ q ∈ querySelectorAll (classSel "nav-drop") s.nav [],
        getAttributeAt "aria-expanded" q s1.nav = some (jsString (x || s.desktop))) := by
  have hmem := (querySelector_first _ _ _ _ hhb).1
  have hne : hb ≠ [] := mem_querySelectorAll_ne_nil _ _ _ hmem
  obtain ⟨mb, hmb⟩ := mem_querySelectorAll_valid _ _ _ _ hmem
  have heq : toggleMenu s fe = some { s with
      nav := toggleAllSections
        (setAttributeAt "aria-label" (if x then "Close navigation" else "Open navigation") hb
          (setAttributeAt "aria-expanded" (if x then "true" else "false") [] s.nav))
        [] (x || s.desktop),
      overflowY := if x && !s.desktop then "hidden" else "" } := by
    subst hx
    simp only [toggleMenu, hhb]
  refine ⟨_, heq, rfl, rfl, rfl, rfl, ?_, ?_, ?_, ?_⟩
  · have h := nodeAt_toggleAllSections
      (setAttributeAt "aria-label" (if x then "Close navigation" else "Open navigation") hb
        (setAttributeAt "aria-expanded" (if x then "true" else "false") [] s.nav))
      [] (x || s.desktop) []
    rw [if_neg (fun hc => mem_querySelectorAll_ne_nil _ _ _ hc rfl)] at h
    rw [nodeAt_setAttributeAt, if_neg (Ne.symm hne), nodeAt_setAttributeAt, if_pos rfl] at h
    simpa [nodeAt_nil] using h
  · show getAttributeAt "aria-label" hb (toggleAllSections _ _ _) = _
    rw [getAttributeAt_toggleAllSections_ne _ _ _ "aria-label" (by decide)]
    simp [getAttributeAt, nodeAt_setAttributeAt, hne, hmb, getAttribute_setAttribute_same]
  · intro sel hsel ctx
    show querySelectorAll sel (toggleAllSections _ _ _) ctx = _
    simp only [querySelectorAll_toggleAllSections _ hsel, querySelectorAll_setAttributeAt _ hsel]
  · intro q hq
    show getAttributeAt "aria-expanded" q (toggleAllSections _ _ _) = _
    apply getAttributeAt_toggleAllSections_mem
    simpa only [querySelectorAll_setAttributeAt _ (respects_classSel "nav-drop")] using hq

/-! ## Claims about `toggleMenu` -/

/-- C1: for a navigation with its hamburger button and either viewport mode,
`toggleMenu(nav, true)` leaves the container's `aria-expanded` at "true" and the button's
`aria-label` at "Close navigation", `toggleMenu(nav, false)` leaves them at "false" and
"Open navigation", and `toggleMenu(nav)` is `toggleMenu(nav, b)` for `b` the negation of
(current `aria-expanded` = "true"). -/
theorem toggleMenu_expansion_and_label (s : Page) (hb : Path)
    (hhb : querySelector (descSel "nav-hamburger" "button") s.nav [] = some hb) :
    (∃ s1, toggleMenu s (some true) = some s1 ∧
      s1.nav.node.getAttribute "aria-expanded" = some "true" ∧
      querySelector (descSel "nav-hamburger" "button") s1.nav [] = some hb ∧
      getAttributeAt "aria-label" hb s1.nav = some "Close navigation") ∧
    (∃ s0, toggleMenu s (some false) = some s0 ∧
      s0.nav.node.getAttribute "aria-expanded" = some "false" ∧
      querySelector (descSel "nav-hamburger" "button") s0.nav [] = some hb ∧
      getAttributeAt "aria-label" hb s0.nav = some "Open navigation") ∧
    toggleMenu s none
      = toggleMenu s (some (!(s.nav.node.getAttribute "aria-expanded" == some "true"))) := by
  refine ⟨?_, ?_, rfl⟩
  · obtain ⟨s1, h1, _, _, _, _, hn, hl, hq, _⟩ := toggleMenu_facts s (some true) hb hhb true rfl
    refine ⟨s1, h1, ?_, ?_, by simpa using hl⟩
    · rw [hn]; exact getAttribute_setAttribute_same _ _ _
    · unfold querySelector at hhb ⊢
      rw [hq _ (respects_descSel _ _)]; exact hhb
  · obtain ⟨s0, h0, _, _, _, _, hn, hl, hq, _⟩ :=
      toggleMenu_facts s (some false) hb hhb false rfl
    refine ⟨s0, h0, ?_, ?_, by simpa using hl⟩
    · rw [hn]; exact getAttribute_setAttribute_same _ _ _
    · unfold querySelector at hhb ⊢
      rw [hq _ (respects_descSel _ _)]; exact hhb

/-- Witness for C1: the decorated example navigation on a non-desktop viewport. -/
theorem toggleMenu_expansion_and_label_witness :
    querySelector (descSel "nav-hamburger" "button") (pageOf false exampleFragment).nav []
        = some [0, 0] ∧
    (∃ s1, toggleMenu (pageOf false exampleFragment) (some true) = some s1 ∧
      s1.nav.node.getAttribute "aria-expanded" = some "true" ∧
      querySelector (descSel "nav-hamburger" "button") s1.nav [] = some [0, 0] ∧
      getAttributeAt "aria-label" [0, 0] s1.nav = some "Close navigation") :=
  ⟨by decide, (toggleMenu_expansion_and_label (pageOf false exampleFragment) [0, 0]
    (by decide)).1⟩

/-- C2: after `toggleMenu` the body's `overflowY` is "hidden" exactly when the container
ends expanded on a non-desktop viewport, and the empty string in every other case, whatever
it was before. -/
theorem toggleMenu_scroll_lock (s : Page) (forceExpanded : Option Bool) (hb : Path)
    (hhb : querySelector (descSel "nav-hamburger" "button") s.nav [] = some hb) :
    ∃ s1, toggleMenu s forceExpanded = some s1 ∧
      (s1.overflowY = "hidden" ↔
        (s1.nav.node.getAttribute "aria-expanded" = some "true" ∧ s.desktop = false)) ∧
      (¬ (s1.nav.node.getAttribute "aria-expanded" = some "true" ∧ s.desktop = false) →
        s1.overflowY = "") := by
  obtain ⟨s1, h1, _, _, _, ho, hn, _⟩ := toggleMenu_facts s forceExpanded hb hhb _ rfl
  refine ⟨s1, h1, ?_⟩
  rw [ho, hn, getAttribute_setAttribute_same]
  generalize (match forceExpanded with
    | some b => b
    | none => !(s.nav.node.getAttribute "aria-expanded" == some "true")) = x
  cases x <;> cases s.desktop <;> simp

/-- Witness for C2: opening the menu of the decorated example navigation on a non-desktop
viewport. -/
theorem toggleMenu_scroll_lock_witness :
    querySelector (descSel "nav-hamburger" "button") (pageOf false exampleFragment).nav []
        = some [0, 0] ∧
    ∃ s1, toggleMenu (pageOf false exampleFragment) none = some s1 ∧
      (s1.overflowY = "hidden" ↔
        (s1.nav.node.getAttribute "aria-expanded" = some "true" ∧
          (pageOf false exampleFragment).desktop = false)) ∧
      (¬ (s1.nav.node.getAttribute "aria-expanded" = some "true" ∧
          (pageOf false exampleFragment).desktop = false) →
        s1.overflowY = "") :=
  ⟨by decide, toggleMenu_scroll_lock (pageOf false exampleFragment) none [0, 0] (by decide)⟩

/-- C3 fails as stated: on a non-desktop viewport `toggleMenu(nav, true)` leaves the two
dropdown sections of the decorated example navigation with `aria-expanded` "true", not
"false"; and on a desktop viewport `toggleMenu(nav, false)` leaves them with "true" as
well. -/
theorem toggleMenu_cascade_counterexample :
    (toggleMenu (pageOf false exampleFragment) (some true)).map
        (fun s => (s.desktop,
          querySelectorAll (classSel "nav-drop") s.nav [],
          getAttributeAt "aria-expanded" [2, 0, 0] s.nav,
          getAttributeAt "aria-expanded" [2, 0, 1] s.nav))
      = some (false, [[2, 0, 0], [2, 0, 1]], some "true", some "true") ∧
    (toggleMenu (pageOf true exampleFragment) (some false)).map
        (fun s => (s.desktop, s.nav.node.getAttribute "aria-expanded",
          getAttributeAt "aria-expanded" [2, 0, 0] s.nav,
          getAttributeAt "aria-expanded" [2, 0, 1] s.nav))
      = some (true, some "false", some "true", some "true") := by
  decide

/-- C3 as amended: `toggleMenu` leaves every dropdown section (`.nav-drop` below the
container) with `aria-expanded` "true" when the container ends expanded or the viewport is
desktop, and with "false" when the container ends collapsed on a non-desktop viewport. -/
theorem toggleMenu_cascade (s : Page) (forceExpanded : Option Bool) (hb : Path)
    (hhb : querySelector (descSel "nav-hamburger" "button") s.nav [] = some hb) :
    ∃ s1, toggleMenu s forceExpanded = some s1 ∧
      ∀ q ∈ querySelectorAll (classSel "nav-drop") s1.nav [],
        getAttributeAt "aria-expanded" q s1.nav
          = some (if s1.nav.node.getAttribute "aria-expanded" = some "true" ∨ s.desktop = true
              then "true" else "false") := by
  obtain ⟨s1, h1, _, _, _, _, hn, _, hq, hd⟩ := toggleMenu_facts s forceExpanded hb hhb _ rfl
  refine ⟨s1, h1, ?_⟩
  intro q hmem
  rw [hq _ (respects_classSel _)] at hmem
  rw [hd q hmem, hn, getAttribute_setAttribute_same]
  generalize (match forceExpanded with
    | some b => b
    | none => !(s.nav.node.getAttribute "aria-expanded" == some "true")) = x
  cases x <;> cases s.desktop <;> simp [jsString]

/-- Witness for the amended C3: closing the menu of the decorated example navigation on a
desktop viewport. -/
theorem toggleMenu_cascade_witness :
    querySelector (descSel "nav-hamburger" "button") (pageOf true exampleFragment).nav []
        = some [0, 0] ∧
    ∃ s1, toggleMenu (pageOf true exampleFragment) (some false) = some s1 ∧
      ∀ q ∈ querySelectorAll (classSel "nav-drop") s1.nav [],
        getAttributeAt "aria-expanded" q s1.nav
          = some (if s1.nav.node.getAttribute "aria-expanded" = some "true" ∨
                (pageOf true exampleFragment).desktop = true
              then "true" else "false") :=
  ⟨by decide, toggleMenu_cascade (pageOf true exampleFragment) (some false) [0, 0] (by decide)⟩

/-- C10: the viewport-change handler produces the state of `toggleMenu(nav, d)` for `d` the
new value of the media query; the container ends expanded after a change to desktop and
collapsed after a change to non-desktop, and the scroll lock ends released in both
directions, whatever the state was before. -/
theorem viewportChange_toggles_to_match (s : Page) (hb : Path)
    (hhb : querySelector (descSel "nav-hamburger" "button") s.nav [] = some hb) :
    step s Event.viewportChange
        = toggleMenu { s with desktop := !s.desktop } (some (!s.desktop)) ∧
    ∃ s1, step s Event.viewportChange = some s1 ∧
      s1.desktop = (!s.desktop) ∧
      s1.nav.node.getAttribute "aria-expanded"
        = some (if s1.desktop = true then "true" else "false") ∧
      s1.overflowY = "" := by
  refine ⟨rfl, ?_⟩
  obtain ⟨s1, h1, hdk, _, _, ho, hn, _⟩ :=
    toggleMenu_facts { s with desktop := !s.desktop } (some (!s.desktop)) hb hhb (!s.desktop) rfl
  refine ⟨s1, h1, hdk, ?_, ?_⟩
  · rw [hn, getAttribute_setAttribute_same, hdk]
  · rw [ho]
    cases s.desktop <;> rfl

/-- Witness for C10: the viewport of the decorated example page, its menu open and the
scroll locked on non-desktop, changes to desktop. -/
theorem viewportChange_toggles_to_match_witness :
    querySelector (descSel "nav-hamburger" "button")
        ({ pageOf false exampleFragment with overflowY := "hidden" } : Page).nav [] = some [0, 0] ∧
    ∃ s1, step { pageOf false exampleFragment with overflowY := "hidden" } Event.viewportChange
        = some s1 ∧
      s1.desktop = true ∧
      s1.nav.node.getAttribute "aria-expanded" = some "true" ∧
      s1.overflowY = "" := by
  refine ⟨by decide, ?_⟩
  obtain ⟨_, s1, h1, h2, h3, h4⟩ := viewportChange_toggles_to_match
    { pageOf false exampleFragment with overflowY := "hidden" } [0, 0] (by decide)
  refine ⟨s1, h1, ?_, ?_, h4⟩
  · rw [h2]; decide
  · rw [h3, h2]; decide

/-! ## The dropdown click listener -/

theorem querySelectorAll_dropdownClick (sel : Selector)
    (hsel : sel.Respects (fun n => (n.tag, n.classes))) (navSections dropdown : Path)
    (doc : Element) (ctx : Path) :
    querySelectorAll sel (dropdownClick navSections dropdown doc) ctx
      = querySelectorAll sel doc ctx := by
  unfold dropdownClick
  simp only [querySelectorAll_setAttributeAt _ hsel, querySelectorAll_toggleAllSections _ hsel]

theorem nodeAt_dropdownClick_root (navSections dropdown : Path) (doc : Element)
    (hd : dropdown ≠ []) :
    (dropdownClick navSections dropdown doc).node = doc.node := by
  have h : nodeAt [] (dropdownClick navSections dropdown doc) = nodeAt [] doc := by
    unfold dropdownClick
    rw [nodeAt_setAttributeAt, if_neg (Ne.symm hd), nodeAt_toggleAllSections, if_neg]
    intro hc
    obtain ⟨r, hr, he, _⟩ := (mem_querySelectorAll _ _ _ _).1 hc
    have := List.append_eq_nil.1 he.symm
    exact hr this.2
  simpa [nodeAt_nil] using h

/-- What the click listener leaves in `aria-expanded`: the clicked dropdown is toggled, every
other `.nav-drop` below `navSections` is collapsed, and nothing else changes. -/
theorem getAttributeAt_dropdownClick (navSections dropdown : Path) (doc : Element)
    (hd : dropdown ∈ querySelectorAll (classSel "nav-drop") doc navSections) (q : Path) :
    getAttributeAt "aria-expanded" q (dropdownClick navSections dropdown doc)
      = if q = dropdown then
          some (if getAttributeAt "aria-expanded" dropdown doc = some "true"
            then "false" else "true")
        else if q ∈ querySelectorAll (classSel "nav-drop") doc navSections then some "false"
        else getAttributeAt "aria-expanded" q doc := by
  obtain ⟨m, hm⟩ := mem_querySelectorAll_valid _ _ _ _ hd
  unfold dropdownClick
  by_cases hq : q = dropdown
  · subst hq
    simp only [getAttributeAt, nodeAt_setAttributeAt, if_pos rfl, nodeAt_toggleAllSections,
      if_pos hd, hm, Option.map_some', Option.bind_some, getAttribute_setAttribute_same]
    by_cases hx : m.getAttribute "aria-expanded" = some "true"
    · simp [hx, getAttribute_setAttribute_same]
    · simp [hx, getAttribute_setAttribute_same]
  · rw [if_neg hq]
    by_cases hmem : q ∈ querySelectorAll (classSel "nav-drop") doc navSections
    · rw [if_pos hmem]
      have := getAttributeAt_toggleAllSections_mem doc navSections false q hmem
      simpa [getAttributeAt, nodeAt_setAttributeAt, hq, jsString] using this
    · rw [if_neg hmem]
      have := getAttributeAt_toggleAllSections_not_mem doc navSections false "aria-expanded" q hmem
      simpa [getAttributeAt, nodeAt_setAttributeAt, hq] using this

/-- C4: the click listener attached to a dropdown `D` of the sections area leaves every other
dropdown of the sections area with `aria-expanded` "false" and `D` with "true" if it was
not expanded and "false" if it was; in particular clicking a collapsed `D` while another
dropdown `B` is expanded leaves `B` collapsed and `D` expanded. -/
theorem dropdownClick_exclusive (doc : Element) (navSections dropdown : Path)
    (hd : dropdown ∈ querySelectorAll (classSel "nav-drop") doc navSections) :
    querySelectorAll (classSel "nav-drop") (dropdownClick navSections dropdown doc) navSections
        = querySelectorAll (classSel "nav-drop") doc navSections ∧
    (∀ q ∈ querySelectorAll (classSel "nav-drop") (dropdownClick navSections dropdown doc)
          navSections,
        q ≠ dropdown →
        getAttributeAt "aria-expanded" q (dropdownClick navSections dropdown doc)
          = some "false") ∧
    getAttributeAt "aria-expanded" dropdown (dropdownClick navSections dropdown doc)
        = some (if getAttributeAt "aria-expanded" dropdown doc = some "true"
            then "false" else "true") ∧
    (∀ b ∈ querySelectorAll (classSel "nav-drop") doc navSections,
        b ≠ dropdown →
        getAttributeAt "aria-expanded" dropdown doc ≠ some "true" →
        getAttributeAt "aria-expanded" b doc = some "true" →
        getAttributeAt "aria-expanded" b (dropdownClick navSections dropdown doc)
            = some "false" ∧
          getAttributeAt "aria-expanded" dropdown (dropdownClick navSections dropdown doc)
            = some "true") := by
  have hq := querySelectorAll_dropdownClick _ (respects_classSel "nav-drop") navSections
    dropdown doc navSections
  refine ⟨hq, ?_, ?_, ?_⟩
  · intro q hmem hne
    rw [hq] at hmem
    rw [getAttributeAt_dropdownClick _ _ _ hd, if_neg hne, if_pos hmem]
  · rw [getAttributeAt_dropdownClick _ _ _ hd, if_pos rfl]
  · intro b hb hne hcol _
    constructor
    · rw [getAttributeAt_dropdownClick _ _ _ hd, if_neg hne, if_pos hb]
    · rw [getAttributeAt_dropdownClick _ _ _ hd, if_pos rfl, if_neg hcol]

/-- Witness for C4: in the decorated example navigation the second dropdown is open and the
first one is clicked. -/
theorem dropdownClick_exclusive_witness :
    ([2, 0, 0] : Path) ∈ querySelectorAll (classSel "nav-drop")
        (setAttributeAt "aria-expanded" "true" [2, 0, 1] (pageOf true exampleFragment).nav) [2] ∧
    getAttributeAt "aria-expanded" [2, 0, 1]
        (dropdownClick [2] [2, 0, 0]
          (setAttributeAt "aria-expanded" "true" [2, 0, 1] (pageOf true exampleFragment).nav))
          = some "false" ∧
    getAttributeAt "aria-expanded" [2, 0, 0]
        (dropdownClick [2] [2, 0, 0]
          (setAttributeAt "aria-expanded" "true" [2, 0, 1] (pageOf true exampleFragment).nav))
          = some "true" :=
  ⟨by decide,
   (dropdownClick_exclusive
      (setAttributeAt "aria-expanded" "true" [2, 0, 1] (pageOf true exampleFragment).nav)
      [2] [2, 0, 0] (by decide)).2.2.2 [2, 0, 1] (by decide) (by decide) (by decide)
      (by decide)⟩

/-! ## `closeOnEscape` -/

theorem node_toggleAllSections_root (doc : Element) (b : Bool) :
    (toggleAllSections doc [] b).node = doc.node := by
  have h := nodeAt_toggleAllSections doc [] b []
  rw [if_neg (fun hc => mem_querySelectorAll_ne_nil _ _ _ hc rfl)] at h
  simpa [nodeAt_nil] using h

theorem focusable_setAttribute_ariaExpanded (v : String) (n : Node) :
    (n.setAttribute "aria-expanded" v).focusable = n.focusable := by
  simp [Node.focusable, tag_setAttribute,
    getAttribute_setAttribute_ne "aria-expanded" "tabindex" v n (by decide),
    getAttribute_setAttribute_ne "aria-expanded" "href" v n (by decide)]

theorem focusable_nodeAt_toggleAllSections (doc : Element) (ctx : Path) (b : Bool) (q : Path) :
    (nodeAt q (toggleAllSections doc ctx b)).map Node.focusable
      = (nodeAt q doc).map Node.focusable := by
  rw [nodeAt_toggleAllSections]
  split
  · cases nodeAt q doc <;> simp [focusable_setAttribute_ariaExpanded]
  · rfl

theorem focused_focusAt (p : Path) (s : Page) :
    (focusAt p s).focused
      = if (nodeAt p s.nav).map Node.focusable = some true then some p else s.focused := by
  unfold focusAt
  cases h : nodeAt p s.nav with
  | none => simp
  | some n => cases hf : n.focusable <;> simp [hf]

/-- Escape on a desktop viewport while something below the navigation is expanded. -/
theorem closeOnEscape_desktop (s : Page) (p : Path) (hd : s.desktop = true)
    (hp : querySelector (attrSel "aria-expanded" "true") s.nav [] = some p) :
    closeOnEscape "Escape" s
      = some (focusAt p { s with nav := toggleAllSections s.nav [] false }) := by
  simp [closeOnEscape, hp, hd]

/-- Escape on a non-desktop viewport while something below the navigation is expanded. -/
theorem closeOnEscape_mobile (s : Page) (p hb : Path) (hd : s.desktop = false)
    (hp : querySelector (attrSel "aria-expanded" "true") s.nav [] = some p)
    (hhb : querySelector (descSel "nav-hamburger" "button") s.nav [] = some hb) :
    ∃ s1, toggleMenu s (some false) = some s1 ∧
      closeOnEscape "Escape" s = some (focusAt hb s1) ∧
      s1.overflowY = "" ∧
      s1.nav.node.getAttribute "aria-expanded" = some "false" ∧
      querySelector (descSel "nav-hamburger" "button") s1.nav [] = some hb ∧
      (∀ q ∈ querySelectorAll (classSel "nav-drop") s1.nav [],
        getAttributeAt "aria-expanded" q s1.nav = some "false") ∧
      (focusAt hb s1).focused = some hb := by
  obtain ⟨s1, h1, _, _, _, ho, hn, _, hq, hdrop⟩ :=
    toggleMenu_facts s (some false) hb hhb false rfl
  have hhb1 : querySelector (descSel "nav-hamburger" "button") s1.nav [] = some hb := by
    unfold querySelector at hhb ⊢
    rw [hq _ (respects_descSel _ _)]; exact hhb
  refine ⟨s1, h1, ?_, ?_, ?_, hhb1, ?_, ?_⟩
  · simp [closeOnEscape, hp, hd, h1, hhb1]
  · simpa using ho
  · rw [hn]; exact getAttribute_setAttribute_same _ _ _
  · intro q hmem
    rw [hq _ (respects_classSel _)] at hmem
    simpa [hd, jsString] using hdrop q hmem
  · obtain ⟨r, _, _, m, hm, hs⟩ :=
      (mem_querySelectorAll _ _ _ _).1 (querySelector_first _ _ _ _ hhb1).1
    simp only [descSel, Bool.and_eq_true, beq_iff_eq] at hs
    rw [focused_focusAt, hm]
    simp [Node.focusable, hs.1]

/-- Any other key, or nothing expanded below the navigation: nothing happens. -/
theorem closeOnEscape_idle (s : Page) (code : String)
    (h : code ≠ "Escape" ∨ querySelector (attrSel "aria-expanded" "true") s.nav [] = none) :
    closeOnEscape code s = some s := by
  rcases h with h | h
  · simp [closeOnEscape, h]
  · unfold closeOnEscape
    split
    · simp [h]
    · rfl

/-- What `closeOnEscape` does on an Escape keydown while some element below the navigation
has `aria-expanded` "true".  On desktop every dropdown section ends collapsed, the
container's own `aria-expanded`, the hamburger label and the scroll lock are unchanged, and
`focus()` is called on the first expanded element in document order, which takes the
keyboard focus only if it is focusable.  On non-desktop the container ends with
`aria-expanded` "false", every dropdown section ends collapsed, the scroll lock is released
and the keyboard focus is on the hamburger button.  For any other key, or when nothing below
the navigation is expanded, the state is unchanged. -/
theorem closeOnEscape_effects (s : Page) (code : String) (hb : Path)
    (hhb : querySelector (descSel "nav-hamburger" "button") s.nav [] = some hb) :
    (∀ p, code = "Escape" → s.desktop = true →
      querySelector (attrSel "aria-expanded" "true") s.nav [] = some p →
      ∃ s1, closeOnEscape code s = some s1 ∧
        (∀ q ∈ querySelectorAll (classSel "nav-drop") s1.nav [],
          getAttributeAt "aria-expanded" q s1.nav = some "false") ∧
        s1.nav.node.getAttribute "aria-expanded" = s.nav.node.getAttribute "aria-expanded" ∧
        querySelector (descSel "nav-hamburger" "button") s1.nav [] = some hb ∧
        getAttributeAt "aria-label" hb s1.nav = getAttributeAt "aria-label" hb s.nav ∧
        s1.overflowY = s.overflowY ∧
        s1.focused
          = (if (nodeAt p s.nav).map Node.focusable = some true then some p else s.focused) ∧
        p ∈ querySelectorAll (attrSel "aria-expanded" "true") s.nav [] ∧
        (∀ q ∈ querySelectorAll (attrSel "aria-expanded" "true") s.nav [],
          q ≠ p → precedes p q = true)) ∧
    (∀ p, code = "Escape" → s.desktop = false →
      querySelector (attrSel "aria-expanded" "true") s.nav [] = some p →
      ∃ s1, closeOnEscape code s = some s1 ∧
        s1.nav.node.getAttribute "aria-expanded" = some "false" ∧
        (∀ q ∈ querySelectorAll (classSel "nav-drop") s1.nav [],
          getAttributeAt "aria-expanded" q s1.nav = some "false") ∧
        s1.overflowY = "" ∧
        querySelector (descSel "nav-hamburger" "button") s1.nav [] = some hb ∧
        s1.focused = some hb) ∧
    ((code ≠ "Escape" ∨ querySelector (attrSel "aria-expanded" "true") s.nav [] = none) →
      closeOnEscape code s = some s) := by
  refine ⟨?_, ?_, closeOnEscape_idle s code⟩
  · intro p hc hd hp
    subst hc
    refine ⟨_, closeOnEscape_desktop s p hd hp, ?_, ?_, ?_, ?_, rfl, ?_,
      (querySelector_first _ _ _ _ hp).1, (querySelector_first _ _ _ _ hp).2⟩
    · intro q hmem
      change q ∈ querySelectorAll _ (toggleAllSections s.nav [] false) [] at hmem
      rw [querySelectorAll_toggleAllSections _ (respects_classSel _)] at hmem
      exact getAttributeAt_toggleAllSections_mem _ _ _ _ hmem
    · show (toggleAllSections s.nav [] false).node.getAttribute _ = _
      rw [node_toggleAllSections_root]
    · show querySelector _ (toggleAllSections s.nav [] false) [] = _
      unfold querySelector at hhb ⊢
      rw [querySelectorAll_toggleAllSections _ (respects_descSel _ _)]; exact hhb
    · exact getAttributeAt_toggleAllSections_ne _ _ _ _ (by decide) _
    · rw [focused_focusAt]
      show (if (nodeAt p (toggleAllSections s.nav [] false)).map Node.focusable = some true
        then some p else s.focused) = _
      rw [focusable_nodeAt_toggleAllSections]
  · intro p hc hd hp
    subst hc
    obtain ⟨s1, _, h2, ho, hn, hhb1, hdrop, hf⟩ := closeOnEscape_mobile s p hb hd hp hhb
    exact ⟨_, h2, hn, hdrop, ho, hhb1, hf⟩

/-- C6 does not hold of the code on desktop.  The page is decorated on a desktop viewport
from the example fragment, with the focus on the body; a click opens the first dropdown
(handle `[2, 0, 0]`), so that it is the first element with `aria-expanded` "true".  On
Escape every dropdown is collapsed, but the list item is not focusable (`decorate` gave it
no `tabindex`), so the call `expandedSection.focus()` of line 18 leaves the keyboard focus
where it was instead of on the section that was expanded. -/
theorem escape_focus_stays_on_desktop :
    (run (pageOf true exampleFragment) [Event.dropdownClick [2] [2, 0, 0]]).map
        (fun s => (s.desktop,
          querySelector (attrSel "aria-expanded" "true") s.nav [],
          s.focused))
      = some (true, some [2, 0, 0], none) ∧
    (run (pageOf true exampleFragment)
        [Event.dropdownClick [2] [2, 0, 0], Event.keydown "Escape"]).map
        (fun s => (querySelectorAll (attrSel "aria-expanded" "true") s.nav [],
          getAttributeAt "aria-expanded" [2, 0, 0] s.nav,
          getAttributeAt "tabindex" [2, 0, 0] s.nav,
          s.focused))
      = some ([], some "false", none, none) := by
  decide

/-- C7 fails as stated: on a non-desktop viewport the menu of the decorated flat fragment
(no dropdown) is opened by a click on the hamburger, and an Escape keydown leaves the
container expanded. -/
theorem escape_leaves_menu_open_counterexample :
    (run (pageOf false flatFragment) [Event.hamburgerClick]).map
        (fun s => (s.desktop, s.nav.node.getAttribute "aria-expanded"))
      = some (false, some "true") ∧
    (run (pageOf false flatFragment) [Event.hamburgerClick, Event.keydown "Escape"]).map
        (fun s => (s.desktop, s.nav.node.getAttribute "aria-expanded"))
      = some (false, some "true") := by
  decide

/-- C7 as amended: on non-desktop an Escape keydown leaves the container collapsed whenever
some element below the navigation has `aria-expanded` "true", and changes nothing when
none has (the container then keeps its flag, expanded or not); on desktop Escape never
changes the container's own node, hence not its expansion flag. -/
theorem escape_container_flag (s : Page) (hb : Path)
    (hhb : querySelector (descSel "nav-hamburger" "button") s.nav [] = some hb) :
    (s.desktop = false →
      querySelector (attrSel "aria-expanded" "true") s.nav [] ≠ none →
      ∃ s1, closeOnEscape "Escape" s = some s1 ∧
        s1.nav.node.getAttribute "aria-expanded" = some "false") ∧
    (s.desktop = false →
      querySelector (attrSel "aria-expanded" "true") s.nav [] = none →
      closeOnEscape "Escape" s = some s) ∧
    (s.desktop = true →
      ∃ s1, closeOnEscape "Escape" s = some s1 ∧ s1.nav.node = s.nav.node) := by
  refine ⟨?_, ?_, ?_⟩
  · intro hd hp
    cases hq : querySelector (attrSel "aria-expanded" "true") s.nav [] with
    | none => exact absurd hq hp
    | some p =>
      obtain ⟨s1, _, h2, _, hn, _⟩ := closeOnEscape_mobile s p hb hd hq hhb
      exact ⟨_, h2, hn⟩
  · intro _ hp
    exact closeOnEscape_idle s "Escape" (Or.inr hp)
  · intro hd
    cases hq : querySelector (attrSel "aria-expanded" "true") s.nav [] with
    | none => exact ⟨s, closeOnEscape_idle s "Escape" (Or.inr hq), rfl⟩
    | some p =>
      exact ⟨_, closeOnEscape_desktop s p hd hq, node_toggleAllSections_root s.nav false⟩

/-- Witness for the amended C7: Escape on the decorated example page, non-desktop, menu
open (its dropdowns are then expanded). -/
theorem escape_container_flag_witness :
    querySelector (descSel "nav-hamburger" "button")
        ((toggleMenu (pageOf false exampleFragment) (some true)).getD
          (pageOf false exampleFragment)).nav [] = some [0, 0] ∧
    ∃ s1, closeOnEscape "Escape"
        ((toggleMenu (pageOf false exampleFragment) (some true)).getD
          (pageOf false exampleFragment)) = some s1 ∧
      s1.nav.node.getAttribute "aria-expanded" = some "false" :=
  ⟨by decide,
   (escape_container_flag
      ((toggleMenu (pageOf false exampleFragment) (some true)).getD
        (pageOf false exampleFragment)) [0, 0] (by decide)).1 (by decide) (by decide)⟩

/-! ## Updates on handles that point nowhere -/

theorem modifyChild_eq_self (g : Element → Element) (i : Nat) (cs : List Element)
    (h : ∀ c, cs[i]? = some c → g c = c) : modifyChild g i cs = cs := by
  induction cs generalizing i with
  | nil => simp [modifyChild]
  | cons c cs ih =>
    cases i with
    | zero => simp [modifyChild, h c (by simp)]
    | succ i =>
      simp only [modifyChild, List.cons.injEq, true_and]
      exact ih i (fun d hd => h d (by simpa using hd))

theorem updateAt_invalid (f : Node → Node) (p : Path) (e : Element)
    (h : elemAt p e = none) : updateAt f p e = e := by
  induction p generalizing e with
  | nil => simp [elemAt] at h
  | cons i p ih =>
    obtain ⟨n, cs⟩ := e
    rw [elemAt_cons] at h
    simp only [updateAt, Element.mk.injEq, true_and]
    apply modifyChild_eq_self
    intro c hc
    apply ih
    simpa [hc] using h

theorem children_length_updateAt (f : Node → Node) (p : Path) (e : Element) :
    (updateAt f p e).children.length = e.children.length := by
  obtain ⟨n, cs⟩ := e
  cases p with
  | nil => rfl
  | cons i p => simp [updateAt, Element.children, length_modifyChild]

theorem children_length_forEach (f : Node → Node) (c : Element → Path → Bool)
    (hs : List Path) (doc : Element) :
    (forEach hs (fun h d => if c d h then updateAt f h d else d) doc).children.length
      = doc.children.length := by
  induction hs generalizing doc with
  | nil => rfl
  | cons h hs ih =>
    rw [forEach_cons, ih]
    split
    · exact children_length_updateAt f h doc
    · rfl

/-! ## `classify` -/

theorem classify_eq (nav : Element) :
    classify nav
      = updateAt (Node.classListAdd "nav-tools") [2]
          (updateAt (Node.classListAdd "nav-sections") [1]
            (updateAt (Node.classListAdd "nav-brand") [0] nav)) := by
  have guard : ∀ (f : Node → Node) (p : Path) (d : Element),
      (match elemAt p d with
        | some _ => updateAt f p d
        | none => d) = updateAt f p d := by
    intro f p d
    cases h : elemAt p d with
    | none => exact (updateAt_invalid f p d h).symm
    | some _ => rfl
  have e1 : "nav-" ++ "brand" = "nav-brand" := by decide
  have e2 : "nav-" ++ "sections" = "nav-sections" := by decide
  have e3 : "nav-" ++ "tools" = "nav-tools" := by decide
  simp only [classify, List.enum, List.enumFrom, List.foldl, guard, e1, e2, e3]

theorem nodeAt_classify (q : Path) (e : Element) :
    nodeAt q (classify e)
      = if q = [2] then (nodeAt q e).map (Node.classListAdd "nav-tools")
        else if q = [1] then (nodeAt q e).map (Node.classListAdd "nav-sections")
        else if q = [0] then (nodeAt q e).map (Node.classListAdd "nav-brand")
        else nodeAt q e := by
  rw [classify_eq]
  simp only [nodeAt_updateAt]
  by_cases h2 : q = [2]
  · subst h2; simp
  · by_cases h1 : q = [1]
    · subst h1; simp
    · by_cases h0 : q = [0]
      · subst h0; simp
      · simp [h2, h1, h0]

/-- `classify` changes nothing that a projection blind to added classes can see. -/
theorem map_nodeAt_classify {β : Type} (proj : Node → β)
    (hp : ∀ c n, proj (Node.classListAdd c n) = proj n) (q : Path) (e : Element) :
    (nodeAt q (classify e)).map proj = (nodeAt q e).map proj := by
  rw [nodeAt_classify]
  split
  · cases nodeAt q e <;> simp [hp]
  · split
    · cases nodeAt q e <;> simp [hp]
    · split
      · cases nodeAt q e <;> simp [hp]
      · rfl

theorem ancestorsAt_classify {β : Type} (proj : Node → β)
    (hp : ∀ c n, proj (Node.classListAdd c n) = proj n) (q : Path) (e : Element)
    (acc : List Node) :
    (ancestorsAt q (classify e) acc).map proj = (ancestorsAt q e acc).map proj := by
  rw [classify_eq]
  rw [ancestorsAt_updateAt proj _ (hp _), ancestorsAt_updateAt proj _ (hp _),
    ancestorsAt_updateAt proj _ (hp _)]

theorem children_length_classify (e : Element) :
    (classify e).children.length = e.children.length := by
  rw [classify_eq]
  simp only [children_length_updateAt]

theorem node_classify (e : Element) : (classify e).node = e.node := by
  have h := nodeAt_classify [] e
  simpa [nodeAt_nil] using h

/-! ## `markDropdowns` -/

theorem tag_markDropdown (n : Node) : (markDropdown n).tag = n.tag := by
  simp [markDropdown, tag_setAttribute, tag_classListAdd]

theorem id_markDropdown (n : Node) : (markDropdown n).id = n.id := by
  simp [markDropdown, id_setAttribute, id_classListAdd]

theorem mem_classes_markDropdown (c : String) (n : Node) :
    c ∈ (markDropdown n).classes ↔ c = "nav-drop" ∨ c ∈ n.classes := by
  simp [markDropdown, classes_setAttribute, mem_classes_classListAdd]

theorem getAttribute_markDropdown (n : Node) :
    (markDropdown n).getAttribute "aria-expanded" = some "false" := by
  simp [markDropdown, getAttribute_setAttribute_same]

theorem respects_tagSel_tag (t : String) : (tagSel t).Respects (fun n => n.tag) := by
  intro a a2 n n2 _ h
  simp only at h
  simp [tagSel, h]

theorem respects_childSel_tag (t1 t2 : String) :
    (childSel t1 t2).Respects (fun n => n.tag) := by
  intro a a2 n n2 ha h
  simp only at h
  have h2 : a.head?.map (fun x => x.tag) = a2.head?.map (fun x => x.tag) := by
    cases a with
    | nil =>
      cases a2 with
      | nil => rfl
      | cons y a2 => simp at ha
    | cons x a =>
      cases a2 with
      | nil => simp at ha
      | cons y a2 =>
        simp only [List.map_cons, List.cons.injEq] at ha
        simp [ha.1]
  simp [childSel, h, h2]

/-- The test of line 100, `li.querySelector('ul')`, is not affected by marking a list item. -/
theorem hasUl_updateAt (d : Element) (h h2 : Path) :
    (querySelector (tagSel "ul") (updateAt markDropdown h2 d) h).isSome
      = (querySelector (tagSel "ul") d h).isSome := by
  rw [querySelector_updateAt (fun n => n.tag) _ (respects_tagSel_tag "ul") _ tag_markDropdown]

theorem markDropdowns_eq (navSections : Path) (nav : Element) :
    markDropdowns navSections nav
      = forEach (querySelectorAll (childSel "ul" "li") nav navSections)
          (fun li d =>
            if (fun d h => (querySelector (tagSel "ul") d h).isSome) d li = true
            then updateAt markDropdown li d else d) nav := by
  unfold markDropdowns
  congr 1
  funext li d
  cases h : querySelector (tagSel "ul") d li <;> simp [h]

theorem nodeAt_markDropdowns (navSections : Path) (nav : Element) (q : Path) :
    nodeAt q (markDropdowns navSections nav)
      = if q ∈ querySelectorAll (childSel "ul" "li") nav navSections ∧
            (querySelector (tagSel "ul") nav q).isSome = true
        then (nodeAt q nav).map markDropdown else nodeAt q nav := by
  rw [markDropdowns_eq]
  exact nodeAt_forEach markDropdown (fun d h => (querySelector (tagSel "ul") d h).isSome)
    (fun d h h2 => hasUl_updateAt d h h2) _ (nodup_querySelectorAll _ _ _) nav q

theorem map_nodeAt_markDropdowns {β : Type} (proj : Node → β)
    (hp : ∀ n, proj (markDropdown n) = proj n) (navSections : Path) (nav : Element)
    (q : Path) :
    (nodeAt q (markDropdowns navSections nav)).map proj = (nodeAt q nav).map proj := by
  rw [nodeAt_markDropdowns]
  split
  · cases nodeAt q nav <;> simp [hp]
  · rfl

theorem ancestorsAt_markDropdowns {β : Type} (proj : Node → β)
    (hp : ∀ n, proj (markDropdown n) = proj n) (navSections : Path) (nav : Element)
    (q : Path) (acc : List Node) :
    (ancestorsAt q (markDropdowns navSections nav) acc).map proj
      = (ancestorsAt q nav acc).map proj := by
  rw [markDropdowns_eq]
  exact ancestorsAt_forEach proj markDropdown hp _ _ nav q acc

theorem querySelectorAll_markDropdowns {β : Type} (proj : Node → β) (sel : Selector)
    (hsel : sel.Respects proj) (hp : ∀ n, proj (markDropdown n) = proj n)
    (navSections : Path) (nav : Element) (ctx : Path) :
    querySelectorAll sel (markDropdowns navSections nav) ctx = querySelectorAll sel nav ctx := by
  rw [markDropdowns_eq]
  exact querySelectorAll_forEach proj sel hsel markDropdown hp _ _ nav ctx

theorem children_length_markDropdowns (navSections : Path) (nav : Element) :
    (markDropdowns navSections nav).children.length = nav.children.length := by
  rw [markDropdowns_eq]
  exact children_length_forEach markDropdown _ _ nav

theorem respects_classSel_hasClass (c : String) :
    (classSel c).Respects (fun n => n.hasClass c) := by
  intro a a2 n n2 _ h
  exact h

theorem hasClass_markDropdown (c : String) (hc : c ≠ "nav-drop") (n : Node) :
    (markDropdown n).hasClass c = n.hasClass c := by
  have := mem_classes_markDropdown c n
  simp only [hc, false_or] at this
  simp [Node.hasClass, this]

/-! ## The parent of an element -/

theorem head?_ancestorsAt (pp : Path) (i : Nat) (e : Element) (acc : List Node) (m : Node)
    (h : nodeAt (pp ++ [i]) e = some m) :
    (ancestorsAt (pp ++ [i]) e acc).head? = nodeAt pp e := by
  rw [nodeAt_append] at h
  cases hc : elemAt pp e with
  | none => simp [hc] at h
  | some c =>
    rw [ancestorsAt_append pp [i] e c acc hc]
    obtain ⟨n, cs⟩ := c
    rw [hc] at h
    change nodeAt [i] (Element.mk n cs) = some m at h
    rw [nodeAt_cons] at h
    rw [ancestorsAt_cons]
    cases hi : cs[i]? with
    | none => simp [hi] at h
    | some d => simp [ancestorsAt, nodeAt, hc, Element.node]

theorem exists_dropLast (r : Path) (hr : r ≠ []) : ∃ pp i, r = pp ++ [i] :=
  ⟨r.dropLast, r.getLast hr, (List.dropLast_append_getLast hr).symm⟩

/-! ## The finished `nav` -/

theorem finish_eq (n : Node) (cs : List Element) :
    finishNav (Element.mk n cs)
      = Element.mk (n.setAttribute "aria-expanded" "false") (hamburger :: cs) := rfl

theorem nodeAt_finish_succ (body : Element) (i : Nat) (r : Path) :
    nodeAt ((i + 1) :: r) (finishNav body) = nodeAt (i :: r) body := by
  obtain ⟨n, cs⟩ := body
  rw [finish_eq, nodeAt_cons, nodeAt_cons]
  simp

theorem nodeAt_finish_zero (body : Element) (r : Path) :
    nodeAt (0 :: r) (finishNav body) = nodeAt r hamburger := by
  obtain ⟨n, cs⟩ := body
  rw [finish_eq, nodeAt_cons]
  simp

theorem node_finish (body : Element) :
    (finishNav body).node = body.node.setAttribute "aria-expanded" "false" := by
  obtain ⟨n, cs⟩ := body
  rfl

theorem children_finish (body : Element) :
    (finishNav body).children = hamburger :: body.children := by
  obtain ⟨n, cs⟩ := body
  rfl

theorem nodeAt_cons_singleton (i : Nat) (r : Path) (n : Node) (c : Element) :
    nodeAt (i :: r) (Element.mk n [c]) = if i = 0 then nodeAt r c else none := by
  rw [nodeAt_cons]
  cases i <;> simp

theorem nodeAt_cons_leaf (i : Nat) (r : Path) (n : Node) :
    nodeAt (i :: r) (Element.mk n []) = none := by
  rw [nodeAt_cons]
  simp

/-- The three elements of the hamburger control. -/
theorem nodeAt_hamburger (r : Path) (m : Node) (h : nodeAt r hamburger = some m) :
    (r = [] ∧ m = ⟨"div", "", ["nav-hamburger"], []⟩) ∨
    (r = [0] ∧ m = ⟨"button", "", [], [("type", "button"), ("aria-label", "Open navigation")]⟩) ∨
    (r = [0, 0] ∧ m = ⟨"span", "", ["nav-hamburger-icon"], []⟩) := by
  unfold hamburger at h
  cases r with
  | nil =>
    left
    simp only [nodeAt_nil, Element.node, Option.some.injEq] at h
    exact ⟨rfl, h.symm⟩
  | cons i r =>
    right
    rw [nodeAt_cons_singleton] at h
    split at h
    · rename_i hi
      subst hi
      cases r with
      | nil =>
        left
        simp only [nodeAt_nil, Element.node, Option.some.injEq] at h
        exact ⟨rfl, h.symm⟩
      | cons j r =>
        right
        rw [nodeAt_cons_singleton] at h
        split at h
        · rename_i hj
          subst hj
          cases r with
          | nil =>
            simp only [nodeAt_nil, Element.node, Option.some.injEq] at h
            exact ⟨rfl, h.symm⟩
          | cons k r =>
            rw [nodeAt_cons_leaf] at h
            simp at h
        · simp at h
    · simp at h

/-! ## `decorate` -/

theorem nodeAt_createNav (i : Nat) (r : Path) (fragment : Element) :
    nodeAt (i :: r) (createNav fragment) = nodeAt (i :: r) fragment := by
  obtain ⟨n, cs⟩ := fragment
  simp only [createNav, Element.children, nodeAt_cons]

theorem not_mem_querySelectorAll_nil (sel : Selector) (doc : Element) (ctx : Path) :
    ([] : Path) ∉ querySelectorAll sel doc ctx := by
  intro hc
  obtain ⟨r, hr, he, _⟩ := (mem_querySelectorAll _ _ _ _).1 hc
  exact hr (List.append_eq_nil.1 he.symm).2

/-- A child of the root is not a `ul > li` match unless the root is a `ul`. -/
theorem not_mem_childSel_top (doc : Element) (ctx : Path) (i : Nat)
    (ht : doc.node.tag ≠ "ul") :
    [i] ∉ querySelectorAll (childSel "ul" "li") doc ctx := by
  intro hc
  obtain ⟨r, _, _, m, hm, hs⟩ := (mem_querySelectorAll _ _ _ _).1 hc
  have hh := head?_ancestorsAt [] i doc [] m hm
  simp only [List.nil_append] at hh
  simp only [childSel, hh, nodeAt_nil, Option.map_some', Bool.and_eq_true, beq_iff_eq,
    Option.some.injEq] at hs
  exact ht hs.2

/-- What `decorateNav` returns: the finished `nav` around a body that is either the
classified `nav` (no `.nav-sections` found) or the classified `nav` with its dropdowns
marked. -/
theorem decorateNav_cases (desktop : Bool) (fragment : Element) :
    (querySelector (classSel "nav-sections") (classify (createNav fragment)) [] = none ∧
      decorateNav desktop fragment = some (finishNav (classify (createNav fragment)), [])) ∨
    (∃ sec, querySelector (classSel "nav-sections") (classify (createNav fragment)) []
        = some sec ∧
      decorateNav desktop fragment
        = some (finishNav (markDropdowns sec (classify (createNav fragment))),
            ((querySelectorAll (classSel "nav-drop")
                (markDropdowns sec (classify (createNav fragment))) sec).filterMap
              (fun dropdown => if desktop then some (sec, dropdown) else none)).map
              (fun l => (shiftHandle l.1, shiftHandle l.2)))) := by
  cases hsec : querySelector (classSel "nav-sections") (classify (createNav fragment)) [] with
  | none =>
    left
    refine ⟨rfl, ?_⟩
    simp [decorateNav, hsec]
  | some sec =>
    right
    refine ⟨sec, rfl, ?_⟩
    have h2 : querySelector (classSel "nav-sections")
        (markDropdowns sec (classify (createNav fragment))) [] = some sec := by
      unfold querySelector at hsec ⊢
      rw [querySelectorAll_markDropdowns (fun n => n.hasClass "nav-sections") _
        (respects_classSel_hasClass _) (hasClass_markDropdown _ (by decide))]
      exact hsec
    simp [decorateNav, hsec, enableDropdowns, h2]

/-- The body of the finished `nav`: its own node is the fresh `nav` node, it has the
fragment's children with their tags and ids, and its top-level children are exactly as
`classify` left them. -/
theorem decorateNav_body (desktop : Bool) (fragment : Element) :
    ∃ body ls, decorateNav desktop fragment = some (finishNav body, ls) ∧
      body.node = ⟨"nav", "nav", [], []⟩ ∧
      body.children.length = fragment.children.length ∧
      (∀ q, (nodeAt q body).map (fun n => (n.tag, n.id))
        = (nodeAt q (createNav fragment)).map (fun n => (n.tag, n.id))) ∧
      (∀ i, nodeAt [i] body = nodeAt [i] (classify (createNav fragment))) := by
  have hnode : (classify (createNav fragment)).node = ⟨"nav", "nav", [], []⟩ := by
    rw [node_classify]; rfl
  have hlen : (classify (createNav fragment)).children.length = fragment.children.length := by
    rw [children_length_classify]; rfl
  have htag : ∀ q, (nodeAt q (classify (createNav fragment))).map (fun n => (n.tag, n.id))
      = (nodeAt q (createNav fragment)).map (fun n => (n.tag, n.id)) := by
    intro q
    apply map_nodeAt_classify
    intro c n
    simp [tag_classListAdd, id_classListAdd]
  rcases decorateNav_cases desktop fragment with ⟨_, h⟩ | ⟨sec, _, h⟩
  · exact ⟨_, _, h, hnode, hlen, htag, fun _ => rfl⟩
  · refine ⟨_, _, h, ?_, ?_, ?_, ?_⟩
    · have e := nodeAt_markDropdowns sec (classify (createNav fragment)) []
      rw [if_neg (fun hc => not_mem_querySelectorAll_nil _ _ _ hc.1)] at e
      simp only [nodeAt_nil, Option.some.injEq] at e
      rw [e, hnode]
    · rw [children_length_markDropdowns, hlen]
    · intro q
      rw [map_nodeAt_markDropdowns (fun n => (n.tag, n.id))
        (fun n => by simp [tag_markDropdown, id_markDropdown]), htag]
    · intro i
      rw [nodeAt_markDropdowns, if_neg]
      intro hc
      exact not_mem_childSel_top _ _ i (by rw [hnode]; decide) hc.1

/-- C8: after `decorate(block)` the block holds exactly one wrapper (class `nav-wrapper`)
holding exactly one `nav` with id "nav" and `aria-expanded` "false"; the children of the
`nav` are the hamburger control followed by the fragment's element children in their order
(same tags and ids at every handle below them); the first three of those carry `nav-brand`,
`nav-sections`, `nav-tools` (their nodes are the fragment's with that class added), the
fourth and later ones keep their node unchanged, and the hamburger's only class is
`nav-hamburger`. -/
theorem decorate_structure (desktop : Bool) (block fragment : Element) :
    ∃ nav, decorate desktop block fragment
        = some (Element.mk block.node [Element.mk ⟨"div", "", ["nav-wrapper"], []⟩ [nav]]) ∧
      nav.node.tag = "nav" ∧ nav.node.id = "nav" ∧
      nav.node.getAttribute "aria-expanded" = some "false" ∧
      (∃ rest, nav.children = hamburger :: rest ∧
        rest.length = fragment.children.length) ∧
      (∀ i r, (nodeAt ((i + 1) :: r) nav).map (fun n => (n.tag, n.id))
        = (nodeAt (i :: r) fragment).map (fun n => (n.tag, n.id))) ∧
      nodeAt [1] nav = (nodeAt [0] fragment).map (Node.classListAdd "nav-brand") ∧
      nodeAt [2] nav = (nodeAt [1] fragment).map (Node.classListAdd "nav-sections") ∧
      nodeAt [3] nav = (nodeAt [2] fragment).map (Node.classListAdd "nav-tools") ∧
      (∀ n, nodeAt [1] nav = some n → "nav-brand" ∈ n.classes) ∧
      (∀ n, nodeAt [2] nav = some n → "nav-sections" ∈ n.classes) ∧
      (∀ n, nodeAt [3] nav = some n → "nav-tools" ∈ n.classes) ∧
      (∀ i, 3 ≤ i → nodeAt [i + 1] nav = nodeAt [i] fragment) ∧
      hamburger.node.classes = ["nav-hamburger"] := by
  obtain ⟨body, ls, h, hnode, hlen, htag, htop⟩ := decorateNav_body desktop fragment
  have e1 : nodeAt [1] (finishNav body)
      = (nodeAt [0] fragment).map (Node.classListAdd "nav-brand") := by
    rw [nodeAt_finish_succ, htop, nodeAt_classify, nodeAt_createNav]
    simp
  have e2 : nodeAt [2] (finishNav body)
      = (nodeAt [1] fragment).map (Node.classListAdd "nav-sections") := by
    rw [nodeAt_finish_succ, htop, nodeAt_classify, nodeAt_createNav]
    simp
  have e3 : nodeAt [3] (finishNav body)
      = (nodeAt [2] fragment).map (Node.classListAdd "nav-tools") := by
    rw [nodeAt_finish_succ, htop, nodeAt_classify, nodeAt_createNav]
    simp
  have hmem : ∀ (c : String) (o : Option Node) (n : Node),
      o.map (Node.classListAdd c) = some n → c ∈ n.classes := by
    intro c o n ho
    cases o with
    | none => simp at ho
    | some m =>
      simp only [Option.map_some', Option.some.injEq] at ho
      subst ho
      exact (mem_classes_classListAdd c c m).2 (Or.inl rfl)
  refine ⟨finishNav body, by simp [decorate, h], ?_, ?_, ?_, ?_, ?_, e1, e2, e3, ?_, ?_, ?_,
    ?_, rfl⟩
  · rw [node_finish, hnode]; rfl
  · rw [node_finish, hnode]; rfl
  · rw [node_finish]; exact getAttribute_setAttribute_same _ _ _
  · exact ⟨body.children, children_finish body, hlen⟩
  · intro i r
    rw [nodeAt_finish_succ, htag, nodeAt_createNav]
  · intro n hn; rw [e1] at hn; exact hmem _ _ _ hn
  · intro n hn; rw [e2] at hn; exact hmem _ _ _ hn
  · intro n hn; rw [e3] at hn; exact hmem _ _ _ hn
  · intro i hi
    rw [nodeAt_finish_succ, htop, nodeAt_classify, nodeAt_createNav]
    have h2 : ([i] : Path) ≠ [2] := by simp; omega
    have h1 : ([i] : Path) ≠ [1] := by simp; omega
    have h0 : ([i] : Path) ≠ [0] := by simp; omega
    simp [h2, h1, h0]

/-! ## Fragments that do not use the marker classes -/

theorem unmarked_no_class (fragment : Element) (hP : Unmarked fragment) (q : Path) (m : Node)
    (hq : q ≠ []) (hm : nodeAt q fragment = some m) :
    "nav-sections" ∉ m.classes ∧ "nav-drop" ∉ m.classes := by
  constructor
  · intro hc
    have : q ∈ querySelectorAll (classSel "nav-sections") fragment [] :=
      (mem_querySelectorAll_classSel _ _ _ _).2 ⟨q, hq, rfl, m, hm, hc⟩
    rw [hP.1] at this
    exact absurd this (List.not_mem_nil _)
  · intro hc
    have : q ∈ querySelectorAll (classSel "nav-drop") fragment [] :=
      (mem_querySelectorAll_classSel _ _ _ _).2 ⟨q, hq, rfl, m, hm, hc⟩
    rw [hP.2] at this
    exact absurd this (List.not_mem_nil _)

theorem nodeAt_createNav_ne (q : Path) (hq : q ≠ []) (fragment : Element) :
    nodeAt q (createNav fragment) = nodeAt q fragment := by
  cases q with
  | nil => exact absurd rfl hq
  | cons i r => exact nodeAt_createNav i r fragment

/-- Below the classified `nav` of an unmarked fragment nothing carries `nav-drop`. -/
theorem no_navDrop_classify (fragment : Element) (hP : Unmarked fragment) (q : Path) (m : Node)
    (hq : q ≠ []) (hm : nodeAt q (classify (createNav fragment)) = some m) :
    "nav-drop" ∉ m.classes := by
  rw [nodeAt_classify, nodeAt_createNav_ne q hq] at hm
  have key : ∀ (c : String) (m0 : Node), c ≠ "nav-drop" → nodeAt q fragment = some m0 →
      "nav-drop" ∉ (Node.classListAdd c m0).classes := by
    intro c m0 hc h0 hmem
    rcases (mem_classes_classListAdd c "nav-drop" m0).1 hmem with e | e
    · exact hc e.symm
    · exact (unmarked_no_class fragment hP q m0 hq h0).2 e
  cases h0 : nodeAt q fragment with
  | none => simp [h0] at hm
  | some m0 =>
    rw [h0] at hm
    split at hm
    · simp only [Option.map_some', Option.some.injEq] at hm
      subst hm; exact key _ m0 (by decide) h0
    · split at hm
      · simp only [Option.map_some', Option.some.injEq] at hm
        subst hm; exact key _ m0 (by decide) h0
      · split at hm
        · simp only [Option.map_some', Option.some.injEq] at hm
          subst hm; exact key _ m0 (by decide) h0
        · simp only [Option.some.injEq] at hm
          subst hm; exact (unmarked_no_class fragment hP q m0 hq h0).2

/-- The `.nav-sections` elements of the classified `nav` of an unmarked fragment: the
second top-level child, if there is one. -/
theorem sections_of_unmarked (fragment : Element) (hP : Unmarked fragment) :
    querySelectorAll (classSel "nav-sections") (classify (createNav fragment)) []
      = if (nodeAt [1] fragment).isSome = true then [[1]] else [] := by
  apply eq_of_sorted_of_mem_iff _ _ (sorted_querySelectorAll _ _ _)
  · split <;> simp
  intro q
  rw [mem_querySelectorAll_classSel]
  constructor
  · rintro ⟨r, hr, rfl, m, hm, hc⟩
    rw [nodeAt_classify, nodeAt_createNav_ne q hr] at hm
    have key : ∀ (c : String) (m0 : Node), c ≠ "nav-sections" →
        nodeAt q fragment = some m0 → "nav-sections" ∉ (Node.classListAdd c m0).classes := by
      intro c m0 hne h0 hmem
      rcases (mem_classes_classListAdd c "nav-sections" m0).1 hmem with e | e
      · exact hne e.symm
      · exact (unmarked_no_class fragment hP q m0 hr h0).1 e
    cases h0 : nodeAt q fragment with
    | none => simp [h0] at hm
    | some m0 =>
      rw [h0] at hm
      split at hm
      · simp only [Option.map_some', Option.some.injEq] at hm
        subst hm; exact absurd hc (key _ m0 (by decide) h0)
      · split at hm
        · rename_i _ h1
          subst h1
          simp [h0]
        · split at hm
          · simp only [Option.map_some', Option.some.injEq] at hm
            subst hm; exact absurd hc (key _ m0 (by decide) h0)
          · simp only [Option.some.injEq] at hm
            subst hm; exact absurd hc (unmarked_no_class fragment hP q m0 hr h0).1
  · intro hq
    split at hq
    · rename_i hs
      simp only [List.mem_singleton] at hq
      subst hq
      cases h0 : nodeAt [1] fragment with
      | none => simp [h0] at hs
      | some m0 =>
        refine ⟨[1], by simp, rfl, Node.classListAdd "nav-sections" m0, ?_, ?_⟩
        · rw [nodeAt_classify, nodeAt_createNav_ne [1] (by simp), h0]
          simp
        · exact (mem_classes_classListAdd _ _ _).2 (Or.inl rfl)
    · simp at hq

theorem nodeAt_top_of_some (i : Nat) (r : Path) (e : Element) (m : Node)
    (h : nodeAt (i :: r) e = some m) : ∃ m0, nodeAt [i] e = some m0 := by
  obtain ⟨n, cs⟩ := e
  rw [nodeAt_cons] at h ⊢
  cases hc : cs[i]? with
  | none => simp [hc] at h
  | some c => exact ⟨c.node, by simp [nodeAt_nil]⟩

theorem isSome_nodeAt_top (i : Nat) (e : Element) :
    (nodeAt [i] e).isSome = true ↔ i < e.children.length := by
  obtain ⟨n, cs⟩ := e
  rw [nodeAt_cons]
  simp only [Element.children]
  cases hc : cs[i]? with
  | none =>
    simp only [Option.none_bind, Option.isSome_none, Bool.false_eq_true, false_iff, not_lt]
    exact List.getElem?_eq_none_iff.1 hc
  | some c =>
    simp only [Option.some_bind, nodeAt_nil, Option.isSome_some, true_iff]
    by_contra hlt
    rw [List.getElem?_eq_none_iff.2 (not_lt.1 hlt)] at hc
    exact absurd hc (by simp)

theorem querySelectorAll_invalid (sel : Selector) (doc : Element) (ctx : Path)
    (h : nodeAt ctx doc = none) : querySelectorAll sel doc ctx = [] := by
  unfold querySelectorAll
  cases he : elemAt ctx doc with
  | none => rfl
  | some e => simp [nodeAt, he] at h

theorem querySelector_of_eq_singleton (sel : Selector) (doc : Element) (ctx p : Path)
    (h : querySelectorAll sel doc ctx = [p]) : querySelector sel doc ctx = some p := by
  simp [querySelector, h]

/-- What `decorateNav` builds from an unmarked fragment: below the body of the finished
`nav` the elements carrying `nav-drop` are exactly the `ul > li` matches below the second
top-level child that have a `ul` descendant, each of them has `aria-expanded` "false", and
every click listener sits on a `.nav-drop` below the second top-level child. -/
theorem decorateNav_unmarked (desktop : Bool) (fragment : Element) (hP : Unmarked fragment) :
    ∃ body ls, decorateNav desktop fragment = some (finishNav body, ls) ∧
      body.node = ⟨"nav", "nav", [], []⟩ ∧
      (∀ q, (nodeAt q body).map (fun n => n.tag)
        = (nodeAt q (classify (createNav fragment))).map (fun n => n.tag)) ∧
      (∀ q n, q ≠ [] → nodeAt q body = some n →
        ("nav-drop" ∈ n.classes ↔
          (q ∈ querySelectorAll (childSel "ul" "li") (classify (createNav fragment)) [1] ∧
            (querySelector (tagSel "ul") (classify (createNav fragment)) q).isSome = true)) ∧
        ("nav-drop" ∈ n.classes → n.getAttribute "aria-expanded" = some "false")) ∧
      (∀ l ∈ ls, l.1 = [2] ∧
        ∃ q, l.2 = shiftHandle q ∧ q ∈ querySelectorAll (classSel "nav-drop") body [1]) := by
  have hnode : (classify (createNav fragment)).node = ⟨"nav", "nav", [], []⟩ := by
    rw [node_classify]; rfl
  have hsecs := sections_of_unmarked fragment hP
  rcases decorateNav_cases desktop fragment with ⟨hnone, h⟩ | ⟨sec, hsome, h⟩
  · -- no second top-level child
    have hno : nodeAt [1] (classify (createNav fragment)) = none := by
      rw [querySelector_eq_none, hsecs] at hnone
      have h1 : ¬ (nodeAt [1] fragment).isSome = true := by
        intro hc; rw [if_pos hc] at hnone; simp at hnone
      have h2 : (nodeAt [1] (classify (createNav fragment))).map (fun n => n.tag)
          = (nodeAt [1] fragment).map (fun n => n.tag) := by
        rw [map_nodeAt_classify (fun n => n.tag) (fun c n => tag_classListAdd c n),
          nodeAt_createNav_ne [1] (by simp)]
      cases h3 : nodeAt [1] fragment with
      | some m => simp [h3] at h1
      | none =>
        rw [h3] at h2
        cases h4 : nodeAt [1] (classify (createNav fragment)) with
        | none => rfl
        | some m => simp [h4] at h2
    refine ⟨_, _, h, hnode, fun _ => rfl, ?_, by simp⟩
    intro q n hq hn
    have hnd := no_navDrop_classify fragment hP q n hq hn
    rw [querySelectorAll_invalid _ _ _ hno]
    simp [hnd]
  · -- the second top-level child is the sections area
    have hsec : sec = [1] := by
      unfold querySelector at hsome
      rw [hsecs] at hsome
      split at hsome
      · simpa using hsome.symm
      · simp at hsome
    subst hsec
    refine ⟨_, _, h, ?_, ?_, ?_, ?_⟩
    · have e := nodeAt_markDropdowns [1] (classify (createNav fragment)) []
      rw [if_neg (fun hc => not_mem_querySelectorAll_nil _ _ _ hc.1)] at e
      simp only [nodeAt_nil, Option.some.injEq] at e
      rw [e, hnode]
    · intro q
      exact map_nodeAt_markDropdowns (fun n => n.tag) tag_markDropdown _ _ q
    · intro q n hq hn
      rw [nodeAt_markDropdowns] at hn
      split at hn
      · rename_i hcond
        cases hm : nodeAt q (classify (createNav fragment)) with
        | none => simp [hm] at hn
        | some m =>
          simp only [hm, Option.map_some', Option.some.injEq] at hn
          subst hn
          refine ⟨⟨fun _ => hcond, fun _ => ?_⟩, fun _ => getAttribute_markDropdown m⟩
          exact (mem_classes_markDropdown _ _).2 (Or.inl rfl)
      · rename_i hcond
        have hnd := no_navDrop_classify fragment hP q n hq hn
        exact ⟨⟨fun hc => absurd hc hnd, fun hc => absurd hc hcond⟩, fun hc => absurd hc hnd⟩
    · intro l hl
      simp only [List.mem_map, List.mem_filterMap] at hl
      obtain ⟨l0, ⟨d, hd, hl0⟩, rfl⟩ := hl
      cases desktop with
      | false => simp at hl0
      | true =>
        simp only [if_true, Option.some.injEq] at hl0
        subst hl0
        exact ⟨rfl, d, rfl, hd⟩

/-- The list items marked by lines 99-104, in terms of tags: the `ul > li` matches below
`sec` that pass the test `li.querySelector('ul')`. -/
theorem marked_iff (doc : Element) (sec q : Path) :
    (q ∈ querySelectorAll (childSel "ul" "li") doc sec ∧
        (querySelector (tagSel "ul") doc q).isSome = true) ↔
      ((∃ r, r ≠ [] ∧ q = sec ++ r) ∧
        (nodeAt q doc).map (fun n => n.tag) = some "li" ∧
        (∃ pp j, q = pp ++ [j] ∧ (nodeAt pp doc).map (fun n => n.tag) = some "ul") ∧
        (∃ r2, r2 ≠ [] ∧ (nodeAt (q ++ r2) doc).map (fun n => n.tag) = some "ul")) := by
  constructor
  · rintro ⟨hmem, hul⟩
    obtain ⟨r, hr, hq, m, hm, hs⟩ := (mem_querySelectorAll _ _ _ _).1 hmem
    simp only [childSel, Bool.and_eq_true, beq_iff_eq] at hs
    have hqne : q ≠ [] := by
      intro hc
      rw [hc] at hq
      exact hr (List.append_eq_nil.1 hq.symm).2
    obtain ⟨pp, j, hpp⟩ := exists_dropLast q hqne
    refine ⟨⟨r, hr, hq⟩, by simp [hm, hs.1], ⟨pp, j, hpp, ?_⟩, ?_⟩
    · have hh := head?_ancestorsAt pp j doc [] m (by rw [← hpp]; exact hm)
      rw [← hpp] at hh
      rw [← hh]
      exact hs.2
    · cases hx : querySelector (tagSel "ul") doc q with
      | none => simp [hx] at hul
      | some x =>
        obtain ⟨r2, hr2, hxe, mu, hmu, hsu⟩ :=
          (mem_querySelectorAll _ _ _ _).1 (querySelector_first _ _ _ _ hx).1
        simp only [tagSel, beq_iff_eq] at hsu
        exact ⟨r2, hr2, by rw [← hxe, hmu]; simp [hsu]⟩
  · rintro ⟨⟨r, hr, hq⟩, hli, ⟨pp, j, hpp, hptag⟩, ⟨r2, hr2, hutag⟩⟩
    cases hm : nodeAt q doc with
    | none => simp [hm] at hli
    | some m =>
      simp only [hm, Option.map_some', Option.some.injEq] at hli
      constructor
      · refine (mem_querySelectorAll _ _ _ _).2 ⟨r, hr, hq, m, hm, ?_⟩
        have hh := head?_ancestorsAt pp j doc [] m (by rw [← hpp]; exact hm)
        rw [← hpp] at hh
        simp only [childSel, Bool.and_eq_true, beq_iff_eq, hh]
        exact ⟨hli, hptag⟩
      · cases hmu : nodeAt (q ++ r2) doc with
        | none => simp [hmu] at hutag
        | some mu =>
          simp only [hmu, Option.map_some', Option.some.injEq] at hutag
          have hx : q ++ r2 ∈ querySelectorAll (tagSel "ul") doc q :=
            (mem_querySelectorAll _ _ _ _).2 ⟨r2, hr2, rfl, mu, hmu, by simp [tagSel, hutag]⟩
          cases hqs : querySelector (tagSel "ul") doc q with
          | some x => rfl
          | none =>
            rw [querySelector_eq_none] at hqs
            rw [hqs] at hx
            exact absurd hx (List.not_mem_nil _)

/-- C9 as amended: for a fragment none of whose elements carries `nav-sections` or
`nav-drop` beforehand, after `decorate(block)` a list item has class `nav-drop` and
`aria-expanded` "false" exactly when it lies below the third child of `nav` (the
fragment's second top-level child), is a child of a `ul` and has a `ul` descendant; with
fewer than two top-level children decoration still succeeds and no list item is marked. -/
theorem decorate_marks_dropdowns (desktop : Bool) (block fragment : Element)
    (hP : Unmarked fragment) :
    ∃ nav, decorate desktop block fragment
        = some (Element.mk block.node [Element.mk ⟨"div", "", ["nav-wrapper"], []⟩ [nav]]) ∧
      (∀ p n, nodeAt p nav = some n → n.tag = "li" →
        (("nav-drop" ∈ n.classes ∧ n.getAttribute "aria-expanded" = some "false") ↔
          ((∃ r, r ≠ [] ∧ p = 2 :: r) ∧
            (∃ pp j, p = pp ++ [j] ∧ (nodeAt pp nav).map (fun m => m.tag) = some "ul") ∧
            (∃ r, r ≠ [] ∧ (nodeAt (p ++ r) nav).map (fun m => m.tag) = some "ul")))) ∧
      (fragment.children.length < 2 →
        ∀ p n, nodeAt p nav = some n → n.tag = "li" → "nav-drop" ∉ n.classes) := by
  obtain ⟨body, ls, h, hnode, htag, hdrop, _⟩ := decorateNav_unmarked desktop fragment hP
  have hroot : (nodeAt [] (classify (createNav fragment))).map (fun m => m.tag) = some "nav" := by
    rw [nodeAt_nil, node_classify]; rfl
  have tagsF : ∀ i r, (nodeAt ((i + 1) :: r) (finishNav body)).map (fun m => m.tag)
      = (nodeAt (i :: r) (classify (createNav fragment))).map (fun m => m.tag) := by
    intro i r
    rw [nodeAt_finish_succ, htag]
  have hrootF : (nodeAt [] (finishNav body)).map (fun m => m.tag) = some "nav" := by
    rw [nodeAt_nil, node_finish, hnode]; rfl
  -- the characterisation at a handle `(i + 1) :: r` of the finished `nav`
  have main : ∀ i r n, nodeAt ((i + 1) :: r) (finishNav body) = some n → n.tag = "li" →
      (("nav-drop" ∈ n.classes ∧ n.getAttribute "aria-expanded" = some "false") ↔
        ((∃ r2, r2 ≠ [] ∧ (i + 1) :: r = 2 :: r2) ∧
          (∃ pp j, (i + 1) :: r = pp ++ [j] ∧
            (nodeAt pp (finishNav body)).map (fun m => m.tag) = some "ul") ∧
          (∃ r2, r2 ≠ [] ∧
            (nodeAt (((i + 1) :: r) ++ r2) (finishNav body)).map (fun m => m.tag)
              = some "ul"))) := by
    intro i r n hn hli
    have hnb : nodeAt (i :: r) body = some n := by rw [← nodeAt_finish_succ]; exact hn
    obtain ⟨hiff, hattr⟩ := hdrop (i :: r) n (by simp) hnb
    have hli1 : (nodeAt (i :: r) (classify (createNav fragment))).map (fun m => m.tag)
        = some "li" := by
      rw [← htag, hnb]; simp [hli]
    rw [show ("nav-drop" ∈ n.classes ∧ n.getAttribute "aria-expanded" = some "false")
        ↔ "nav-drop" ∈ n.classes from ⟨fun x => x.1, fun x => ⟨x, hattr x⟩⟩, hiff, marked_iff]
    constructor
    · rintro ⟨⟨r1, hr1, hq⟩, _, ⟨qq, j, hqq, hqtag⟩, ⟨r2, hr2, hutag⟩⟩
      simp only [List.singleton_append, List.cons.injEq] at hq
      obtain ⟨hi, hr⟩ := hq
      subst hi
      refine ⟨⟨r, by rw [hr]; exact hr1, rfl⟩, ?_, ⟨r2, hr2, ?_⟩⟩
      · cases qq with
        | nil => rw [hroot] at hqtag; simp at hqtag
        | cons k qq1 =>
          simp only [List.cons_append, List.cons.injEq] at hqq
          obtain ⟨hk, hrq⟩ := hqq
          subst hk
          exact ⟨2 :: qq1, j, by simp [hrq], by rw [tagsF]; exact hqtag⟩
      · rw [List.cons_append, tagsF]
        exact hutag
    · rintro ⟨⟨r1, hr1, hp⟩, ⟨pp, j, hpp, hptag⟩, ⟨r2, hr2, hutag⟩⟩
      simp only [List.cons.injEq] at hp
      obtain ⟨hi, hr⟩ := hp
      have hi1 : i = 1 := by omega
      subst hi1
      refine ⟨⟨r, by rw [hr]; exact hr1, rfl⟩, hli1, ?_, ⟨r2, hr2, ?_⟩⟩
      · cases pp with
        | nil => rw [hrootF] at hptag; simp at hptag
        | cons k pp1 =>
          simp only [List.cons_append, List.cons.injEq] at hpp
          obtain ⟨hk, hrq⟩ := hpp
          subst hk
          exact ⟨1 :: pp1, j, by simp [hrq], by rw [← tagsF]; exact hptag⟩
      · rw [List.cons_append, ← tagsF]
        exact hutag
  -- handles that are not of that form do not point to a list item
  have other : ∀ p n, nodeAt p (finishNav body) = some n → n.tag = "li" →
      ∃ i r, p = (i + 1) :: r := by
    intro p n hn hli
    cases p with
    | nil =>
      rw [nodeAt_nil, node_finish, hnode] at hn
      simp only [Option.some.injEq] at hn
      subst hn
      simp [Node.setAttribute] at hli
    | cons k r =>
      cases k with
      | succ i => exact ⟨i, r, rfl⟩
      | zero =>
        rw [nodeAt_finish_zero] at hn
        rcases nodeAt_hamburger r n hn with ⟨_, e⟩ | ⟨_, e⟩ | ⟨_, e⟩ <;>
          · subst e
            simp at hli
  refine ⟨finishNav body, by simp [decorate, h], ?_, ?_⟩
  · intro p n hn hli
    obtain ⟨i, r, rfl⟩ := other p n hn hli
    exact main i r n hn hli
  · intro hlen p n hn hli hc
    obtain ⟨i, r, rfl⟩ := other p n hn hli
    have hattr : n.getAttribute "aria-expanded" = some "false" :=
      ((hdrop (i :: r) n (by simp) (by rw [← nodeAt_finish_succ]; exact hn)).2 hc)
    obtain ⟨⟨r1, _, hp⟩, _⟩ := (main i r n hn hli).1 ⟨hc, hattr⟩
    simp only [List.cons.injEq] at hp
    have hi1 : i = 1 := by omega
    subst hi1
    have hnb : nodeAt (1 :: r) body = some n := by rw [← nodeAt_finish_succ]; exact hn
    have h1 : (nodeAt (1 :: r) fragment).map (fun m => m.tag) = some n.tag := by
      rw [← nodeAt_createNav, ← map_nodeAt_classify (fun m => m.tag)
        (fun c m => tag_classListAdd c m), ← htag, hnb]
      rfl
    cases h2 : nodeAt (1 :: r) fragment with
    | none => simp [h2] at h1
    | some m =>
      obtain ⟨m0, hm0⟩ := nodeAt_top_of_some 1 r fragment m h2
      have := (isSome_nodeAt_top 1 fragment).1 (by simp [hm0])
      omega

/-- C9 fails as stated: the only top-level child of this fragment already carries the
class `nav-sections`, so `nav.querySelector('.nav-sections')` finds it, and the list item
inside it (handle `[1, 0, 0]` of the finished `nav`, in the brand area) is marked although
the fragment has no second top-level child. -/
theorem decorate_marks_preset_counterexample :
    presetFragment.children.length = 1 ∧
    (decorate true (plain "div" []) presetFragment).map
        (fun b => (nodeAt [0, 0, 1, 0, 0] b).map
          (fun n => (n.tag, n.classes, n.getAttribute "aria-expanded")))
      = some (some ("li", ["nav-drop"], some "false")) := by
  decide

/-- Witness for the amended C9: the example fragment. -/
theorem decorate_marks_dropdowns_witness :
    Unmarked exampleFragment ∧
    ∃ nav, decorate true (plain "div" []) exampleFragment
        = some (Element.mk (plain "div" []).node
            [Element.mk ⟨"div", "", ["nav-wrapper"], []⟩ [nav]]) ∧
      (∀ p n, nodeAt p nav = some n → n.tag = "li" →
        (("nav-drop" ∈ n.classes ∧ n.getAttribute "aria-expanded" = some "false") ↔
          ((∃ r, r ≠ [] ∧ p = 2 :: r) ∧
            (∃ pp j, p = pp ++ [j] ∧ (nodeAt pp nav).map (fun m => m.tag) = some "ul") ∧
            (∃ r, r ≠ [] ∧ (nodeAt (p ++ r) nav).map (fun m => m.tag) = some "ul")))) ∧
      (exampleFragment.children.length < 2 →
        ∀ p n, nodeAt p nav = some n → n.tag = "li" → "nav-drop" ∉ n.classes) :=
  ⟨⟨by decide, by decide⟩,
   decorate_marks_dropdowns true (plain "div" []) exampleFragment ⟨by decide, by decide⟩⟩

/-! ## One dropdown at a time -/

theorem mem_dropdowns_finish (body : Element) (ctx q : Path) (i : Nat)
    (h : q ∈ querySelectorAll (classSel "nav-drop") body (i :: ctx)) :
    shiftHandle q ∈ querySelectorAll (classSel "nav-drop") (finishNav body) ((i + 1) :: ctx) := by
  obtain ⟨r, hr, hq, m, hm, hc⟩ := (mem_querySelectorAll_classSel _ _ _ _).1 h
  subst hq
  refine (mem_querySelectorAll_classSel _ _ _ _).2 ⟨r, hr, rfl, m, ?_, hc⟩
  show nodeAt ((i + 1) :: (ctx ++ r)) (finishNav body) = some m
  rw [nodeAt_finish_succ]
  exact hm

/-- The click listeners of a freshly decorated page all captured the same `navSections` and
each sits on a `.nav-drop` below it. -/
theorem decoratedPage_listeners (desktop : Bool) (fragment : Element) (overflowY : String)
    (focused : Option Path) :
    ∃ s0, decoratedPage desktop fragment overflowY focused = some s0 ∧
      s0.desktop = desktop ∧ s0.overflowY = overflowY ∧ s0.focused = focused ∧
      ∃ sec : Path, ∀ l ∈ s0.listeners,
        l.1 = sec ∧ l.2 ∈ querySelectorAll (classSel "nav-drop") s0.nav sec := by
  rcases decorateNav_cases desktop fragment with ⟨_, h⟩ | ⟨sec, hsec, h⟩
  · have hdp : decoratedPage desktop fragment overflowY focused
        = some ⟨finishNav (classify (createNav fragment)), overflowY, focused, desktop, []⟩ := by
      simp only [decoratedPage, h, Option.map_some']
    refine ⟨_, hdp, rfl, rfl, rfl, [], ?_⟩
    intro l hl
    simp at hl
  · have hdp : decoratedPage desktop fragment overflowY focused
        = some ⟨finishNav (markDropdowns sec (classify (createNav fragment))), overflowY,
            focused, desktop,
            ((querySelectorAll (classSel "nav-drop")
                (markDropdowns sec (classify (createNav fragment))) sec).filterMap
              (fun dropdown => if desktop then some (sec, dropdown) else none)).map
              (fun l => (shiftHandle l.1, shiftHandle l.2))⟩ := by
      simp only [decoratedPage, h, Option.map_some']
    refine ⟨_, hdp, rfl, rfl, rfl, shiftHandle sec, ?_⟩
    intro l hl
    simp only [List.mem_map, List.mem_filterMap] at hl
    obtain ⟨l0, ⟨d, hd, hl0⟩, rfl⟩ := hl
    cases desktop with
    | false => simp at hl0
    | true =>
      simp only [if_true, Option.some.injEq] at hl0
      subst hl0
      refine ⟨rfl, ?_⟩
      have hne := mem_querySelectorAll_ne_nil _ _ _ (querySelector_first _ _ _ _ hsec).1
      cases sec with
      | nil => exact absurd rfl hne
      | cons i c => exact mem_dropdowns_finish _ c d i hd

/-- The page `decorate` leaves for an unmarked fragment has all its dropdown sections
collapsed. -/
theorem decoratedPage_unmarked (desktop : Bool) (fragment : Element) (hP : Unmarked fragment)
    (overflowY : String) (focused : Option Path) (s0 : Page)
    (h0 : decoratedPage desktop fragment overflowY focused = some s0) :
    ∀ q ∈ querySelectorAll (classSel "nav-drop") s0.nav [],
      getAttributeAt "aria-expanded" q s0.nav = some "false" := by
  obtain ⟨body, ls, h, hnode, _, hdrop, _⟩ := decorateNav_unmarked desktop fragment hP
  simp only [decoratedPage, h, Option.map_some', Option.some.injEq] at h0
  subst h0
  intro q hq
  change q ∈ querySelectorAll (classSel "nav-drop") (finishNav body) [] at hq
  show getAttributeAt "aria-expanded" q (finishNav body) = some "false"
  obtain ⟨r, hr, hqe, m, hm, hc⟩ := (mem_querySelectorAll_classSel _ _ _ _).1 hq
  cases q with
  | nil => exact absurd hq (not_mem_querySelectorAll_nil _ _ _)
  | cons k r =>
    cases k with
    | zero =>
      rw [nodeAt_finish_zero] at hm
      rcases nodeAt_hamburger r m hm with ⟨_, e⟩ | ⟨_, e⟩ | ⟨_, e⟩ <;>
        · subst e
          simp at hc
    | succ i =>
      have hmb : nodeAt (i :: r) body = some m := by rw [← nodeAt_finish_succ]; exact hm
      simp [getAttributeAt, hm, (hdrop (i :: r) m (by simp) hmb).2 hc]

theorem atMostOne_of_subsingleton (nav : Element) (d : Path)
    (h : ∀ q ∈ querySelectorAll (classSel "nav-drop") nav [],
      getAttributeAt "aria-expanded" q nav = some "true" → q = d) : AtMostOneExpanded nav := by
  intro p hp q hq h1 h2
  rw [h p hp h1, h q hq h2]

/-- A dropdown click or a keydown on desktop: the listeners are as before, no dropdown outside
the sections area gets expanded, and at most one dropdown is left expanded. -/
theorem step_dropdownOrKey (s : Page) (ev : Event) (hd : s.desktop = true)
    (hcov : ListenersCover s) (hev : ev.isDropdownOrKey = true)
    (hone : AtMostOneExpanded s.nav) :
    ∃ s1, step s ev = some s1 ∧ s1.desktop = true ∧ ListenersCover s1 ∧
      AtMostOneExpanded s1.nav := by
  cases ev with
  | hamburgerClick => simp [Event.isDropdownOrKey] at hev
  | viewportChange => simp [Event.isDropdownOrKey] at hev
  | dropdownClick sec d =>
    by_cases hl : (sec, d) ∈ s.listeners
    · have hq : ∀ ctx, querySelectorAll (classSel "nav-drop") (dropdownClick sec d s.nav) ctx
          = querySelectorAll (classSel "nav-drop") s.nav ctx :=
        fun ctx => querySelectorAll_dropdownClick _ (respects_classSel _) sec d s.nav ctx
      obtain ⟨sec0, hls, hout⟩ := hcov
      obtain ⟨hs, hdm⟩ := hls (sec, d) hl
      simp only at hs hdm
      subst hs
      -- after the click only `d` can be expanded
      have key : ∀ x ∈ querySelectorAll (classSel "nav-drop") s.nav [],
          getAttributeAt "aria-expanded" x (dropdownClick sec d s.nav) = some "true" →
          x = d := by
        intro x hx hxe
        by_contra hne
        rw [getAttributeAt_dropdownClick sec d s.nav hdm, if_neg hne] at hxe
        split at hxe
        · exact absurd hxe (by decide)
        · rename_i hnot
          exact hout x hx hnot hxe
      refine ⟨{ s with nav := dropdownClick sec d s.nav }, by simp [step, hl], hd, ?_, ?_⟩
      · refine ⟨sec, ?_, ?_⟩
        · intro l hlm
          show l.1 = sec ∧ l.2 ∈ querySelectorAll _ (dropdownClick sec d s.nav) sec
          rw [hq]
          exact hls l hlm
        · intro x hx hnot
          change x ∈ querySelectorAll _ (dropdownClick sec d s.nav) [] at hx
          change x ∉ querySelectorAll _ (dropdownClick sec d s.nav) sec at hnot
          show getAttributeAt _ x (dropdownClick sec d s.nav) ≠ _
          rw [hq] at hx hnot
          intro hxe
          have := key x hx hxe
          subst this
          exact hnot hdm
      · apply atMostOne_of_subsingleton _ d
        intro x hx hxe
        change x ∈ querySelectorAll _ (dropdownClick sec d s.nav) [] at hx
        rw [hq] at hx
        exact key x hx hxe
    · exact ⟨s, by simp [step, hl], hd, hcov, hone⟩
  | keydown code =>
    by_cases hc : code = "Escape"
    · subst hc
      cases hp : querySelector (attrSel "aria-expanded" "true") s.nav [] with
      | none =>
        exact ⟨s, closeOnEscape_idle s "Escape" (Or.inr hp), hd, hcov, hone⟩
      | some p =>
        have hq : ∀ ctx, querySelectorAll (classSel "nav-drop")
            (toggleAllSections s.nav [] false) ctx
              = querySelectorAll (classSel "nav-drop") s.nav ctx :=
          fun ctx => querySelectorAll_toggleAllSections _ (respects_classSel _) _ _ _ ctx
        have hall : ∀ x ∈ querySelectorAll (classSel "nav-drop") s.nav [],
            getAttributeAt "aria-expanded" x (toggleAllSections s.nav [] false)
              ≠ some "true" := by
          intro x hx hxe
          rw [getAttributeAt_toggleAllSections_mem _ _ _ _ hx] at hxe
          exact absurd hxe (by decide)
        obtain ⟨sec0, hls, _⟩ := hcov
        refine ⟨_, closeOnEscape_desktop s p hd hp, hd, ⟨sec0, ?_, ?_⟩, ?_⟩
        · intro l hlm
          show l.1 = sec0 ∧ l.2 ∈ querySelectorAll _ (toggleAllSections s.nav [] false) sec0
          rw [hq]
          exact hls l hlm
        · intro x hx _
          change x ∈ querySelectorAll _ (toggleAllSections s.nav [] false) [] at hx
          rw [hq] at hx
          exact hall x hx
        · intro x hx _ _ hxe _
          change x ∈ querySelectorAll _ (toggleAllSections s.nav [] false) [] at hx
          rw [hq] at hx
          exact absurd hxe (hall x hx)
    · exact ⟨s, closeOnEscape_idle s code (Or.inl hc), hd, hcov, hone⟩

theorem run_dropdownOrKey (evs : List Event) (hev : ∀ ev ∈ evs, ev.isDropdownOrKey = true)
    (s : Page) (hd : s.desktop = true) (hcov : ListenersCover s)
    (hone : AtMostOneExpanded s.nav) :
    ∃ s1, run s evs = some s1 ∧ s1.desktop = true ∧ ListenersCover s1 ∧
      AtMostOneExpanded s1.nav := by
  induction evs generalizing s with
  | nil => exact ⟨s, rfl, hd, hcov, hone⟩
  | cons ev evs ih =>
    obtain ⟨s1, h1, hd1, hcov1, hone1⟩ :=
      step_dropdownOrKey s ev hd hcov (hev ev (List.mem_cons_self _ _)) hone
    obtain ⟨s2, h2, r2⟩ := ih (fun e he => hev e (List.mem_cons_of_mem _ he)) s1 hd1 hcov1 hone1
    exact ⟨s2, by simp [run, h1, h2], r2⟩

/-- C5 fails as stated: on desktop a click on the hamburger of the freshly decorated example
navigation leaves its two dropdown sections, at handles `[2, 0, 0]` and `[2, 0, 1]`, both
with `aria-expanded` "true". -/
theorem desktop_two_expanded_counterexample :
    (run (pageOf true exampleFragment) [Event.hamburgerClick]).map
        (fun s => (s.desktop,
          querySelectorAll (classSel "nav-drop") s.nav [],
          getAttributeAt "aria-expanded" [2, 0, 0] s.nav,
          getAttributeAt "aria-expanded" [2, 0, 1] s.nav))
      = some (true, [[2, 0, 0], [2, 0, 1]], some "true", some "true") := by
  decide

/-- C5 as amended: on desktop, from a freshly decorated navigation none of whose dropdown
sections is expanded, every sequence of dropdown click listeners and keydown handlers can be
run, and it ends in a state where at most one dropdown section has `aria-expanded` "true". -/
theorem dropdowns_exclusive_on_desktop (fragment : Element) (overflowY : String)
    (focused : Option Path) (s0 : Page) (evs : List Event)
    (h0 : decoratedPage true fragment overflowY focused = some s0)
    (hcol : ∀ q ∈ querySelectorAll (classSel "nav-drop") s0.nav [],
      getAttributeAt "aria-expanded" q s0.nav ≠ some "true")
    (hev : ∀ ev ∈ evs, ev.isDropdownOrKey = true) :
    ∃ s1, run s0 evs = some s1 ∧ s1.desktop = true ∧ AtMostOneExpanded s1.nav := by
  obtain ⟨s, hs, hd, _, _, sec, hls⟩ :=
    decoratedPage_listeners true fragment overflowY focused
  rw [h0, Option.some.injEq] at hs
  subst hs
  have hone : AtMostOneExpanded s0.nav := fun p hp _ _ h1 _ => absurd h1 (hcol p hp)
  obtain ⟨s1, h1, hd1, _, hone1⟩ :=
    run_dropdownOrKey evs hev s0 hd ⟨sec, hls, fun q hq _ => hcol q hq⟩ hone
  exact ⟨s1, h1, hd1, hone1⟩

/-- Witness for the amended C5: on the example page the first dropdown is clicked, then the
second, then Escape is pressed, then the first is clicked again. -/
theorem dropdowns_exclusive_on_desktop_witness :
    decoratedPage true exampleFragment "" none = some (pageOf true exampleFragment) ∧
    (∀ q ∈ querySelectorAll (classSel "nav-drop") (pageOf true exampleFragment).nav [],
      getAttributeAt "aria-expanded" q (pageOf true exampleFragment).nav ≠ some "true") ∧
    (∀ ev ∈ [Event.dropdownClick [2] [2, 0, 0], Event.dropdownClick [2] [2, 0, 1],
        Event.keydown "Escape", Event.dropdownClick [2] [2, 0, 0]],
      ev.isDropdownOrKey = true) ∧
    ∃ s1, run (pageOf true exampleFragment)
        [Event.dropdownClick [2] [2, 0, 0], Event.dropdownClick [2] [2, 0, 1],
          Event.keydown "Escape", Event.dropdownClick [2] [2, 0, 0]] = some s1 ∧
      s1.desktop = true ∧ AtMostOneExpanded s1.nav :=
  ⟨rfl, by decide, by decide,
   dropdowns_exclusive_on_desktop exampleFragment "" none (pageOf true exampleFragment) _ rfl
     (by decide) (by decide)⟩

/-! ## The hamburger button is always there -/

/-- In the navigation built by `decorate` the query of line 46 finds the button of the
hamburger control. -/
theorem hamburger_of_finishNav (body : Element) :
    querySelector (descSel "nav-hamburger" "button") (finishNav body) [] = some [0, 0] := by
  obtain ⟨n, cs⟩ := body
  rw [finish_eq]
  simp [querySelector, querySelectorAll, elemAt, ancestorsAt, selectIn, selectList, hamburger,
    descSel, Element.node, Node.hasClass]

theorem hamburger_of_decorated (desktop : Bool) (fragment : Element) (overflowY : String)
    (focused : Option Path) :
    ∃ s0, decoratedPage desktop fragment overflowY focused = some s0 ∧
      querySelector (descSel "nav-hamburger" "button") s0.nav [] = some [0, 0] := by
  obtain ⟨body, ls, h, _⟩ := decorateNav_body desktop fragment
  exact ⟨⟨finishNav body, overflowY, focused, desktop, ls⟩,
    by simp only [decoratedPage, h, Option.map_some'], hamburger_of_finishNav body⟩

/-- No event handler fails on a navigation that has its hamburger button, and the button is
still found afterwards. -/
theorem step_total (s : Page) (ev : Event) (hb : Path)
    (hhb : querySelector (descSel "nav-hamburger" "button") s.nav [] = some hb) :
    ∃ s1, step s ev = some s1 ∧
      querySelector (descSel "nav-hamburger" "button") s1.nav [] = some hb := by
  have keep : ∀ nav2 : Element,
      (∀ ctx, querySelectorAll (descSel "nav-hamburger" "button") nav2 ctx
        = querySelectorAll (descSel "nav-hamburger" "button") s.nav ctx) →
      querySelector (descSel "nav-hamburger" "button") nav2 [] = some hb := by
    intro nav2 h
    unfold querySelector at hhb ⊢
    rw [h]; exact hhb
  cases ev with
  | hamburgerClick =>
    obtain ⟨s1, h1, _, _, _, _, _, _, hq, _⟩ := toggleMenu_facts s none hb hhb _ rfl
    exact ⟨s1, h1, keep _ (hq _ (respects_descSel _ _))⟩
  | viewportChange =>
    obtain ⟨s1, h1, _, _, _, _, _, _, hq, _⟩ :=
      toggleMenu_facts { s with desktop := !s.desktop } (some (!s.desktop)) hb hhb _ rfl
    exact ⟨s1, h1, keep _ (hq _ (respects_descSel _ _))⟩
  | dropdownClick sec d =>
    by_cases hl : (sec, d) ∈ s.listeners
    · exact ⟨{ s with nav := dropdownClick sec d s.nav }, by simp [step, hl],
        keep _ (querySelectorAll_dropdownClick _ (respects_descSel _ _) sec d s.nav)⟩
    · exact ⟨s, by simp [step, hl], hhb⟩
  | keydown code =>
    by_cases hc : code = "Escape"
    · subst hc
      cases hp : querySelector (attrSel "aria-expanded" "true") s.nav [] with
      | none => exact ⟨s, closeOnEscape_idle s "Escape" (Or.inr hp), hhb⟩
      | some p =>
        cases hd : s.desktop with
        | true =>
          exact ⟨_, closeOnEscape_desktop s p hd hp,
            keep _ (querySelectorAll_toggleAllSections _ (respects_descSel _ _) _ _ _)⟩
        | false =>
          obtain ⟨s1, _, h2, _, _, hhb1, _, _⟩ := closeOnEscape_mobile s p hb hd hp hhb
          exact ⟨_, h2, hhb1⟩
    · exact ⟨s, closeOnEscape_idle s code (Or.inl hc), hhb⟩

theorem run_of_hamburger (evs : List Event) (s : Page) (hb : Path)
    (hhb : querySelector (descSel "nav-hamburger" "button") s.nav [] = some hb) :
    ∃ s1, run s evs = some s1 := by
  induction evs generalizing s with
  | nil => exact ⟨s, rfl⟩
  | cons ev evs ih =>
    obtain ⟨s1, h1, hhb1⟩ := step_total s ev hb hhb
    obtain ⟨s2, h2⟩ := ih s1 hhb1
    exact ⟨s2, by simp [run, h1, h2]⟩

/-- Every sequence of events can be run from a freshly decorated page. -/
theorem run_total (desktop : Bool) (fragment : Element) (overflowY : String)
    (focused : Option Path) (evs : List Event) :
    ∃ s0 s1, decoratedPage desktop fragment overflowY focused = some s0 ∧
      run s0 evs = some s1 := by
  obtain ⟨s0, h0, hhb⟩ := hamburger_of_decorated desktop fragment overflowY focused
  obtain ⟨s1, h1⟩ := run_of_hamburger evs s0 [0, 0] hhb
  exact ⟨s0, s1, h0, h1⟩

end Header
